import Mathlib

set_option maxHeartbeats 1000000

/-!
Verification of the proptest core: a shallow embedding of the
Strategy/ValueTree contract and the combinators built on it (Filter,
Flatten/FlatMap, fixed-size Array product), of the `is_minimal_case`
signal, and of the configuration layer (`Config`, `contextualize_config`,
`RngSeed` parsing and printing, `from_base16`/`to_base16`).

Rust code is embedded as pure Lean functions: a `&mut self` method of a
value tree becomes a function from the tree state to `result × state`;
fallible operations return `Option`/`Except`; loops whose termination
depends on an abstract inner tree take explicit fuel, with a dedicated
constructor marking the out-of-fuel case so that it is never confused
with an actual result.  Machine integers (`u32`, `u64`, `u8`) are
embedded as `Nat` with explicit bounds where they matter.
-/

/-- A `ValueTree` interface over an explicit state type `σ`: `current`
reads the value, `simplify`/`complicate` return the Rust `bool` result
together with the mutated state.  This embeds the trait
`ValueTree` (`current(&self) -> Value`, `simplify(&mut self) -> bool`,
`complicate(&mut self) -> bool`). -/
structure ValueTreeI (σ : Type u) (α : Type v) where
  current : σ → α
  simplify : σ → Bool × σ
  complicate : σ → Bool × σ

namespace Fuse

/-- Modelled from the spec: the `Fuse` wrapper (strategy/fuse.rs, whose
source is not included) enforces the ValueTree contract invariant
"after `complicate()` returns false, it keeps returning false until a
subsequent `simplify()` succeeds (terminal-until-reset)" and its dual
for `simplify`.  It holds the inner tree plus two latch flags; a failed
`simplify` clears `may_simplify`, a failed `complicate` clears
`may_complicate`, and a successful call of one kind re-arms the other.
`flatten.rs` additionally clears the latches directly through
`disallow_simplify`/`disallow_complicate`. -/
structure State (σ : Type u) where
  inner : σ
  may_simplify : Bool
  may_complicate : Bool
deriving Repr, DecidableEq

/-- Modelled from the spec: `Fuse::new` starts with both operations allowed. -/
def new (s : σ) : State σ := ⟨s, true, true⟩

/-- Modelled from the spec: `Fuse::disallow_simplify`. -/
def disallow_simplify (f : State σ) : State σ := { f with may_simplify := false }

/-- Modelled from the spec: `Fuse::disallow_complicate`. -/
def disallow_complicate (f : State σ) : State σ := { f with may_complicate := false }

/-- Modelled from the spec: `Fuse::simplify` delegates while the latch is
open; a failure closes the `simplify` latch, a success re-arms `complicate`. -/
def simplify (vt : ValueTreeI σ α) (f : State σ) : Bool × State σ :=
  if f.may_simplify then
    let r := vt.simplify f.inner
    if r.1 then (true, ⟨r.2, f.may_simplify, true⟩)
    else (false, ⟨r.2, false, f.may_complicate⟩)
  else (false, f)

/-- Modelled from the spec: `Fuse::complicate`, dual to `simplify`. -/
def complicate (vt : ValueTreeI σ α) (f : State σ) : Bool × State σ :=
  if f.may_complicate then
    let r := vt.complicate f.inner
    if r.1 then (true, ⟨r.2, true, f.may_complicate⟩)
    else (false, ⟨r.2, f.may_simplify, false⟩)
  else (false, f)

end Fuse

/-! ## Filter (src/strategy/filter.rs)

`FilterValueTree<S, F>` holds a `source : S` tree and a predicate.  The
predicate is a parameter of the embedded operations; the tree state is
just the inner tree's state `σ`.  `ensure_acceptable` is a loop whose
iteration count depends on the inner tree, so it takes fuel; the result
type `Filter.Res` distinguishes a normal return, the `panic!` in
`ensure_acceptable`, and fuel exhaustion. -/

namespace Filter

/-- Result of a Filter operation: a normal return carrying the Rust
return value, the `panic!("Unable to complicate filtered strategy back
into acceptable value")`, or out-of-fuel (no verdict). -/
inductive Res (β : Type u) where
  | ret (v : β)
  | panicked
  | fuelOut
deriving Repr, DecidableEq

/-- Embeds `FilterValueTree::ensure_acceptable`: while the predicate
fails on the current value, call the inner `complicate()`; if it refuses,
panic.  Fuel bounds the number of `complicate` calls. -/
def ensure_acceptable (vt : ValueTreeI σ α) (pred : α → Bool) :
    Nat → σ → Res σ
  | fuel, s =>
    if pred (vt.current s) then .ret s
    else
      match fuel with
      | 0 => .fuelOut
      | fuel + 1 =>
        let r := vt.complicate s
        if r.1 then ensure_acceptable vt pred fuel r.2
        else .panicked

/-- Embeds `FilterValueTree::simplify`: delegate to the inner tree; on
success re-establish the predicate via `ensure_acceptable`. -/
def simplify (vt : ValueTreeI σ α) (pred : α → Bool) (fuel : Nat) (s : σ) :
    Res (Bool × σ) :=
  let r := vt.simplify s
  if r.1 then
    match ensure_acceptable vt pred fuel r.2 with
    | .ret s' => .ret (true, s')
    | .panicked => .panicked
    | .fuelOut => .fuelOut
  else .ret (false, r.2)

/-- Embeds `FilterValueTree::complicate`, mirroring `simplify`. -/
def complicate (vt : ValueTreeI σ α) (pred : α → Bool) (fuel : Nat) (s : σ) :
    Res (Bool × σ) :=
  let r := vt.complicate s
  if r.1 then
    match ensure_acceptable vt pred fuel r.2 with
    | .ret s' => .ret (true, s')
    | .panicked => .panicked
    | .fuelOut => .fuelOut
  else .ret (false, r.2)

/-- Result of `Filter::new_value`: a tree plus runner, an `Err(Reason)`
propagated from the source draw or from `reject_local`, or out of fuel. -/
inductive NVRes (σ : Type u) (ρ : Type v) where
  | ok (s : σ) (r : ρ)
  | err
  | fuelOut

/-- Embeds `Filter::new_value` over an abstract runner state `ρ`: loop
drawing inner trees (`draw`, the source strategy's `new_value`, which may
fail with `Err`) and testing the predicate, surfacing each predicate
failure through `reject_local` (which may exhaust the reject budget,
`Err`) until one draw passes. -/
def new_value (vt : ValueTreeI σ α) (pred : α → Bool)
    (draw : ρ → Except Unit (σ × ρ)) (reject_local : ρ → Except Unit ρ) :
    Nat → ρ → NVRes σ ρ
  | 0, _ => .fuelOut
  | fuel + 1, r =>
    match draw r with
    | .error _ => .err
    | .ok (s, r') =>
      if pred (vt.current s) then .ok s r'
      else
        match reject_local r' with
        | .error _ => .err
        | .ok r'' => new_value vt pred draw reject_local fuel r''

end Filter

/-! ## TestRunner (flat-map slice) -/

/-- Modelled from the spec: the slice of the `TestRunner` state that the
Flatten combinator uses (test_runner/mod.rs is not included in the
sources).  `flat_map_regens` counts units consumed so far from the
run-wide regeneration budget `max_flat_map_regens`; `cases` is
`Config.cases`; `rng` abstracts the pseudo-random generator state that
inner `new_tree` draws consume. -/
structure TestRunner where
  flat_map_regens : Nat
  max_flat_map_regens : Nat
  cases : Nat
  rng : Nat
deriving Repr, DecidableEq

/-- Modelled from the spec: `TestRunner::flat_map_regen` consumes one
unit from the global regeneration budget shared across the whole run,
returning whether a unit was still available. -/
def TestRunner.flat_map_regen (r : TestRunner) : Bool × TestRunner :=
  if r.flat_map_regens < r.max_flat_map_regens then
    (true, { r with flat_map_regens := r.flat_map_regens + 1 })
  else (false, r)

/-! ## Flatten (src/strategy/flatten.rs)

`FlattenValueTree<S>` is embedded generically: `σm` is the state of the
outer ("meta") tree, whose `current()` is a value of type `μ` denoting a
strategy; `innerOf` maps that value to the strategy's `new_tree`
(a runner-state transformer that may fail with `Err`); `σi` is the state
of the inner tree.  Both the meta tree and the inner tree are wrapped in
`Fuse`, exactly as in the Rust structure. -/

namespace Flatten

/-- State of `FlattenValueTree`: fields `meta`, `current`,
`last_complication`, `runner`, `complicate_regen_remaining`, in the
source's order and types (`Fuse<S>`, `Fuse<Tree>`, `Option<Fuse<Tree>>`,
`TestRunner`, `u32`). -/
structure State (σm : Type u) (σi : Type v) where
  meta : Fuse.State σm
  current : Fuse.State σi
  last_complication : Option (Fuse.State σi)
  runner : TestRunner
  complicate_regen_remaining : Nat
deriving Repr, DecidableEq

/-- Embeds `FlattenValueTree::new`: draw the first inner tree from the
meta tree's current strategy; on success wrap both trees in fresh
`Fuse`s, remember a partial clone of the runner and start with no
pending regeneration credit. -/
def new (mvt : ValueTreeI σm μ)
    (innerOf : μ → TestRunner → Option σi × TestRunner)
    (runner : TestRunner) (meta : σm) : Option (State σm σi) × TestRunner :=
  match innerOf (mvt.current meta) runner with
  | (some cur, r') => (some ⟨Fuse.new meta, Fuse.new cur, none, r', 0⟩, r')
  | (none, r') => (none, r')

/-- Embeds the tail of `FlattenValueTree::simplify` (after the meta axis
is exhausted): zero the regeneration credit, snapshot the current inner
tree with `simplify` disallowed, and try to simplify the inner tree in
place, remembering the snapshot on success. -/
def simplifyFallback (ivt : ValueTreeI σi α) (s : State σm σi) :
    Bool × State σm σi :=
  let s := { s with complicate_regen_remaining := 0 }
  let old_current := Fuse.disallow_simplify s.current
  let c := Fuse.simplify ivt s.current
  if c.1 then (true, { s with current := c.2, last_complication := some old_current })
  else (false, { s with current := c.2 })

/-- Embeds `FlattenValueTree::simplify`: disallow complication of the
current inner tree, try the meta axis first; on meta success draw a new
inner tree, swapping it with the previous one (which becomes
`last_complication`) and arming `complicate_regen_remaining` with
`Config.cases`; if the draw fails, disallow further meta simplification;
otherwise fall back to simplifying the inner tree in place. -/
def simplify (mvt : ValueTreeI σm μ)
    (innerOf : μ → TestRunner → Option σi × TestRunner)
    (ivt : ValueTreeI σi α) (s : State σm σi) : Bool × State σm σi :=
  let s := { s with current := Fuse.disallow_complicate s.current }
  let m := Fuse.simplify mvt s.meta
  let s := { s with meta := m.2 }
  if m.1 then
    match innerOf (mvt.current m.2.inner) s.runner with
    | (some v, r') =>
      (true, { s with
        last_complication := some s.current,
        current := Fuse.new v,
        runner := r',
        complicate_regen_remaining := r'.cases })
    | (none, r') =>
      simplifyFallback ivt { s with runner := r', meta := Fuse.disallow_simplify s.meta }
  else simplifyFallback ivt s

/-- Embeds the last two stages of `FlattenValueTree::complicate`:
complicate the inner tree in place, and failing that restore the last
remembered pre-simplify tree. -/
def complicateStage3 (ivt : ValueTreeI σi α) (s : State σm σi) :
    Bool × State σm σi :=
  let c := Fuse.complicate ivt s.current
  let s := { s with current := c.2 }
  if c.1 then (true, s)
  else
    match s.last_complication with
    | some v => (true, { s with current := v, last_complication := none })
    | none => (false, s)

/-- Embeds the meta-complication stage of `FlattenValueTree::complicate`:
complicate the meta tree and, on success, draw a fresh inner tree and
re-arm the regeneration credit with `Config.cases`. -/
def complicateStage2 (mvt : ValueTreeI σm μ)
    (innerOf : μ → TestRunner → Option σi × TestRunner)
    (ivt : ValueTreeI σi α) (s : State σm σi) : Bool × State σm σi :=
  let m := Fuse.complicate mvt s.meta
  let s := { s with meta := m.2 }
  if m.1 then
    match innerOf (mvt.current m.2.inner) s.runner with
    | (some v, r') =>
      (true, { s with
        current := Fuse.new v,
        runner := r',
        complicate_regen_remaining := r'.cases })
    | (none, r') => complicateStage3 ivt { s with runner := r' }
  else complicateStage3 ivt s

/-- Embeds `FlattenValueTree::complicate`: while regeneration credit
remains and the run-wide budget grants a unit, decrement the credit and
redraw the inner tree; a refused budget zeroes the credit; then try the
meta axis, then the inner tree in place, then the remembered
`last_complication`. -/
def complicate (mvt : ValueTreeI σm μ)
    (innerOf : μ → TestRunner → Option σi × TestRunner)
    (ivt : ValueTreeI σi α) (s : State σm σi) : Bool × State σm σi :=
  if s.complicate_regen_remaining > 0 then
    let g := s.runner.flat_map_regen
    if g.1 then
      let s := { s with
        runner := g.2,
        complicate_regen_remaining := s.complicate_regen_remaining - 1 }
      match innerOf (mvt.current s.meta.inner) s.runner with
      | (some v, r') => (true, { s with current := Fuse.new v, runner := r' })
      | (none, r') => complicateStage2 mvt innerOf ivt { s with runner := r' }
    else
      complicateStage2 mvt innerOf ivt
        { s with runner := g.2, complicate_regen_remaining := 0 }
  else complicateStage2 mvt innerOf ivt s

end Flatten

/-! ## Fixed-size array product (src/array.rs) -/

namespace ArrayTree

/-- State of `ArrayValueTree<[T; N]>`: the per-slot trees (embedded as a
list; its length plays the role of `N`), the scan position `shrinker`,
and the recorded slot `last_shrinker`. -/
structure State (σ : Type u) where
  tree : List σ
  shrinker : Nat
  last_shrinker : Option Nat
deriving Repr, DecidableEq

/-- Embeds the `while self.shrinker < N` loop of
`ArrayValueTree::simplify`: try each slot from the current scan position
upward, keeping the mutated slot state either way, and stop at the first
slot whose `simplify` succeeds. Returns the Rust `bool` along with the
updated slots and final `shrinker`.  The loop runs at most
`tree.length - shrinker` times since `shrinker` strictly increases, so
passing that number as structural fuel (as `simplify` below does) makes
this total without changing its behaviour. -/
def simplifyGo (vt : ValueTreeI σ α) :
    Nat → List σ → Nat → Bool × List σ × Nat
  | 0, tree, shrinker => (false, tree, shrinker)
  | fuel + 1, tree, shrinker =>
    if h : shrinker < tree.length then
      let r := vt.simplify (tree.get ⟨shrinker, h⟩)
      if r.1 then (true, tree.set shrinker r.2, shrinker)
      else simplifyGo vt fuel (tree.set shrinker r.2) (shrinker + 1)
    else (false, tree, shrinker)

/-- Embeds `ArrayValueTree::simplify`: run the scan loop; a success
records the touched slot in `last_shrinker`. -/
def simplify (vt : ValueTreeI σ α) (s : State σ) : Bool × State σ :=
  let r := simplifyGo vt (s.tree.length - s.shrinker) s.tree s.shrinker
  if r.1 then (true, ⟨r.2.1, r.2.2, some r.2.2⟩)
  else (false, ⟨r.2.1, r.2.2, s.last_shrinker⟩)

/-- Embeds `ArrayValueTree::complicate`: retry exactly the recorded
slot; a refusal clears the record and returns false; with no record,
return false touching nothing.  The outer `none` embeds the Rust
index-out-of-bounds panic on `self.tree[shrinker]`, unreachable from
states the combinator itself constructs. -/
def complicate (vt : ValueTreeI σ α) (s : State σ) :
    Option (Bool × State σ) :=
  match s.last_shrinker with
  | some k =>
    match s.tree[k]? with
    | some elem =>
      let r := vt.complicate elem
      if r.1 then some (true, ⟨s.tree.set k r.2, k, some k⟩)
      else some (false, ⟨s.tree.set k r.2, k, none⟩)
    | none => none
  | none => some (false, s)

end ArrayTree

/-! ## is_minimal_case (src/is_minimal_case.rs)

The thread-local cell `IS_MINIMAL_CASE` is embedded as an explicit
`Bool` state threaded through the operations that read or write it. -/

namespace MinimalCase

/-- Embeds `is_minimal_case()`: read the thread-local cell. -/
def is_minimal_case (flag : Bool) : Bool := flag

/-- Embeds `MinimalCaseGuard::begin_minimal_case`:
`IS_MINIMAL_CASE.replace(true)` — the prior value is discarded. -/
def begin_minimal_case (_flag : Bool) : Bool := true

/-- Embeds `Drop for MinimalCaseGuard`:
`IS_MINIMAL_CASE.replace(false)` — unconditionally clears the cell,
regardless of the value it held when the guard was created. -/
def guard_drop (_flag : Bool) : Bool := false

end MinimalCase

/-! ## Hex encoding (test_runner/failure_persistence/mod.rs)

Rust strings are embedded as `List Char`; the payloads involved are
ASCII, so bytes and characters coincide. -/

/-- The lowercase hex digit for `n < 16`, as produced by the `{:02x}`
formatting used in `to_base16`. -/
def hexDigit (n : Nat) : Char :=
  if n < 10 then Char.ofNat (48 + n) else Char.ofNat (87 + n)

/-- Embeds `to_base16`: two lowercase hex digits per byte, in order. -/
def to_base16 : List Nat → List Char
  | [] => []
  | b :: rest => hexDigit (b / 16) :: hexDigit (b % 16) :: to_base16 rest

/-- Embeds `src.as_bytes().chunks(2)`. -/
def chunks2 : List Char → List (List Char)
  | [] => []
  | [a] => [[a]]
  | a :: b :: rest => [a, b] :: chunks2 rest

/-- The numeric value of a hex digit (`0-9`, `a-f`, `A-F`), as accepted
by `u8::from_str_radix(_, 16)`. -/
def hexVal (c : Char) : Option Nat :=
  if 48 ≤ c.toNat ∧ c.toNat ≤ 57 then some (c.toNat - 48)
  else if 97 ≤ c.toNat ∧ c.toNat ≤ 102 then some (c.toNat - 87)
  else if 65 ≤ c.toNat ∧ c.toNat ≤ 70 then some (c.toNat - 55)
  else none

/-- The optional leading `+` sign accepted by unsigned `from_str` and
`from_str_radix`. -/
def stripPlus (l : List Char) : List Char :=
  match l with
  | c :: rest => if c = '+' then rest else l
  | [] => l

/-- One digit step of base-16 accumulation; `none` is absorbing. -/
def hexStep (acc : Option Nat) (c : Char) : Option Nat :=
  acc.bind fun a => (hexVal c).map fun v => a * 16 + v

/-- Embeds `u8::from_str_radix(_, 16)` on a chunk: an optional leading
`+`, then at least one hex digit and nothing else, with the value
required to fit in a `u8`. -/
def from_str_radix16 (l : List Char) : Option Nat :=
  match stripPlus l with
  | [] => none
  | l' =>
    (l'.foldl hexStep (some 0)).bind
      fun v => if v < 256 then some v else none

/-- The zip loop of `from_base16`: write each destination byte from its
2-character chunk; a chunk that fails to decode aborts with `None`,
leaving the current byte and all later bytes unwritten. -/
def fromBase16Go : List Nat → List (List Char) → Option Unit × List Nat
  | [], _ => (some (), [])
  | dst, [] => (some (), dst)
  | d :: ds, ch :: chs =>
    match from_str_radix16 ch with
    | some v =>
      let r := fromBase16Go ds chs
      (r.1, v :: r.2)
    | none => (none, d :: ds)

/-- Embeds `from_base16`: reject (before writing anything) unless the
destination holds exactly one byte per two source characters, then run
the zip loop. Returns the Rust `Option<()>` along with the final
destination contents. -/
def from_base16 (dst : List Nat) (src : List Char) : Option Unit × List Nat :=
  if dst.length * 2 ≠ src.length then (none, dst)
  else fromBase16Go dst (chunks2 src)

/-! ## RngSeed and Config (test_runner/config.rs) -/

/-- Embeds `RngSeed`: random, a `u64`-abbreviated seed, or a full
hex-encoded seed (its leaked byte buffer embedded as `List Nat`). -/
inductive RngSeed where
  | Random
  | Fixed (n : Nat)
  | FullHexEncodedSeed (bytes : List Nat)
deriving Repr, DecidableEq

/-- Embeds `str::split("-")` specialised to the single separator `-`:
the result always has at least one (possibly empty) segment. -/
def splitDash : List Char → List (List Char)
  | [] => [[]]
  | c :: rest =>
    if c = '-' then [] :: splitDash rest
    else
      match splitDash rest with
      | seg :: segs => (c :: seg) :: segs
      | [] => [[c]]

/-- The numeric value of a decimal digit. -/
def decVal (c : Char) : Option Nat :=
  if 48 ≤ c.toNat ∧ c.toNat ≤ 57 then some (c.toNat - 48) else none

/-- One digit step of base-10 accumulation; `none` is absorbing. -/
def decStep (acc : Option Nat) (c : Char) : Option Nat :=
  acc.bind fun a => (decVal c).map fun v => a * 10 + v

/-- Embeds unsigned-integer `FromStr` with exclusive bound `bound`
(`2^32` for `u32`, `2^64` for `u64`/`usize`): an optional leading `+`,
then at least one decimal digit and nothing else; overflow is an
error. -/
def parseUnsigned (bound : Nat) (l : List Char) : Option Nat :=
  match stripPlus l with
  | [] => none
  | l' =>
    (l'.foldl decStep (some 0)).bind
      fun v => if v < bound then some v else none

/-- `u64::from_str`. -/
def parseU64 : List Char → Option Nat := parseUnsigned (2 ^ 64)

/-- `u32::from_str`. -/
def parseU32 : List Char → Option Nat := parseUnsigned (2 ^ 32)

/-- `usize::from_str` (64-bit target). -/
def parseUsize : List Char → Option Nat := parseUnsigned (2 ^ 64)

/-- Embeds `bool::from_str`: exactly `true` or `false`. -/
def parseBool (l : List Char) : Option Bool :=
  if l = ['t', 'r', 'u', 'e'] then some true
  else if l = ['f', 'a', 'l', 's', 'e'] then some false
  else none

/-- Embeds `RngSeed::from_str`: an input whose first `-`-segment is
`hex` takes the hex path — a missing payload or a third segment is an
error, and otherwise the `Option` result of `from_base16` into a
zero-initialised buffer of half the payload length is ignored and the
buffer is returned as a seed; any other input must parse as a `u64`. -/
def RngSeed.from_str (s : List Char) : Except Unit RngSeed :=
  match splitDash s with
  | seg :: rest =>
    if seg = ['h', 'e', 'x'] then
      match rest with
      | [] => .error ()
      | payload :: rest2 =>
        if rest2 = [] then
          let buf := List.replicate (payload.length / 2) 0
          let r := from_base16 buf payload
          .ok (.FullHexEncodedSeed r.2)
        else .error ()
    else
      match parseU64 s with
      | some n => .ok (.Fixed n)
      | none => .error ()
  | [] => .error ()

/-- Decimal rendering of `n`, embedding `{}` for a `u64`. -/
def natDec (n : Nat) : List Char := Nat.toDigits 10 n

/-- Embeds `impl Display for RngSeed`: `random`, `u64-{n}`, or
`hex-{s}` with `s` the base-16 rendering of the seed bytes. -/
def RngSeed.display : RngSeed → List Char
  | .Random => ['r', 'a', 'n', 'd', 'o', 'm']
  | .Fixed n => ['u', '6', '4', '-'] ++ natDec n
  | .FullHexEncodedSeed bytes => ['h', 'e', 'x', '-'] ++ to_base16 bytes

/-- Modelled from the spec: the two supported RNG algorithm variants
(`rng.rs` is not included in the sources); config.rs documents the
`PROPTEST_RNG_ALGORITHM` values `xs` → `XorShift` and `cc` → `ChaCha`. -/
inductive RngAlgorithm where
  | XorShift
  | ChaCha
deriving Repr, DecidableEq

/-- Modelled from the spec: `RngAlgorithm::from_str` accepts exactly the
two documented tokens `xs` and `cc`. -/
def RngAlgorithm.from_str (l : List Char) : Option RngAlgorithm :=
  if l = ['x', 's'] then some .XorShift
  else if l = ['c', 'c'] then some .ChaCha
  else none

/-- Embeds `Config`, with the fields the configuration claims are about.
`failure_persistence` embeds `Option<Box<dyn FailurePersistence>>` as
its `isSome` (the claims only distinguish disabled from enabled). -/
structure Config where
  cases : Nat
  max_local_rejects : Nat
  max_global_rejects : Nat
  max_flat_map_regens : Nat
  failure_persistence : Bool
  fork : Bool
  timeout : Nat
  max_shrink_time : Nat
  max_shrink_iters : Nat
  max_default_size_range : Nat
  verbose : Nat
  rng_algorithm : RngAlgorithm
  rng_seed : RngSeed
deriving Repr, DecidableEq

/-- `u32::MAX`. -/
def u32Max : Nat := 2 ^ 32 - 1

/-- Embeds `u32::saturating_mul` for in-range operands. -/
def satMul32 (a b : Nat) : Nat := min (a * b) u32Max

/-- Embeds `default_default_config()`. -/
def default_default_config : Config where
  cases := 256
  max_local_rejects := 65536
  max_global_rejects := 1024
  max_flat_map_regens := 1000000
  failure_persistence := false
  fork := false
  timeout := 0
  max_shrink_time := 0
  max_shrink_iters := u32Max
  max_default_size_range := 100
  verbose := 0
  rng_algorithm := .XorShift
  rng_seed := .Random

/-- Embeds the method `Config::max_shrink_iters`, the effective
shrink-iteration ceiling: the sentinel `u32::MAX` selects the automatic
limit `cases.saturating_mul(4)`; any other stored value is used
verbatim. -/
def Config.max_shrink_iters_eff (c : Config) : Nat :=
  if u32Max = c.max_shrink_iters then satMul32 c.cases 4
  else c.max_shrink_iters

/-! ## contextualize_config (test_runner/config.rs)

The environment is embedded as an association list from variable names
to values; a value of `none` embeds an `OsString` that is not valid
unicode (`to_str` fails).  Warnings printed with `eprintln!` are counted
in the second component of each result. -/

/-- Embeds `parse_or_warn`: a non-unicode value or a failed parse keeps
the previous value and warns; a successful parse replaces it. -/
def parse_or_warn (p : List Char → Option A) (src : Option (List Char))
    (dst : A) : A × Nat :=
  match src with
  | some s =>
    match p s with
    | some v => (v, 0)
    | none => (dst, 1)
  | none => (dst, 1)

def CASES : List Char := "PROPTEST_CASES".toList
def MAX_LOCAL_REJECTS : List Char := "PROPTEST_MAX_LOCAL_REJECTS".toList
def MAX_GLOBAL_REJECTS : List Char := "PROPTEST_MAX_GLOBAL_REJECTS".toList
def MAX_FLAT_MAP_REGENS : List Char := "PROPTEST_MAX_FLAT_MAP_REGENS".toList
def MAX_SHRINK_TIME : List Char := "PROPTEST_MAX_SHRINK_TIME".toList
def MAX_SHRINK_ITERS : List Char := "PROPTEST_MAX_SHRINK_ITERS".toList
def MAX_DEFAULT_SIZE_RANGE : List Char := "PROPTEST_MAX_DEFAULT_SIZE_RANGE".toList
def FORK : List Char := "PROPTEST_FORK".toList
def TIMEOUT : List Char := "PROPTEST_TIMEOUT".toList
def VERBOSE : List Char := "PROPTEST_VERBOSE".toList
def RNG_ALGORITHM : List Char := "PROPTEST_RNG_ALGORITHM".toList
def RNG_SEED : List Char := "PROPTEST_RNG_SEED".toList
def DISABLE_FAILURE_PERSISTENCE : List Char :=
  "PROPTEST_DISABLE_FAILURE_PERSISTENCE".toList

/-- `RngSeed::from_str` as the `Option`-valued parser `parse` uses. -/
def rngSeedParse (l : List Char) : Option RngSeed :=
  match RngSeed.from_str l with
  | .ok v => some v
  | .error _ => none

/-- Embeds the body of the `for (var, value)` loop of
`contextualize_config` for a single environment entry: the `else if`
chain over the recognized names (with `FORK`/`TIMEOUT` handled first via
`continue`), including the `RNG_SEED` stash-parse-validate-restore
workaround and the warning for unknown `PROPTEST_`-prefixed names. -/
def applyEnvVar (c : Config) (var : List Char) (value : Option (List Char)) :
    Config × Nat :=
  if var = FORK then
    let r := parse_or_warn parseBool value c.fork
    ({ c with fork := r.1 }, r.2)
  else if var = TIMEOUT then
    let r := parse_or_warn parseU32 value c.timeout
    ({ c with timeout := r.1 }, r.2)
  else if var = CASES then
    let r := parse_or_warn parseU32 value c.cases
    ({ c with cases := r.1 }, r.2)
  else if var = MAX_LOCAL_REJECTS then
    let r := parse_or_warn parseU32 value c.max_local_rejects
    ({ c with max_local_rejects := r.1 }, r.2)
  else if var = MAX_GLOBAL_REJECTS then
    let r := parse_or_warn parseU32 value c.max_global_rejects
    ({ c with max_global_rejects := r.1 }, r.2)
  else if var = MAX_FLAT_MAP_REGENS then
    let r := parse_or_warn parseU32 value c.max_flat_map_regens
    ({ c with max_flat_map_regens := r.1 }, r.2)
  else if var = MAX_SHRINK_TIME then
    let r := parse_or_warn parseU32 value c.max_shrink_time
    ({ c with max_shrink_time := r.1 }, r.2)
  else if var = MAX_SHRINK_ITERS then
    let r := parse_or_warn parseU32 value c.max_shrink_iters
    ({ c with max_shrink_iters := r.1 }, r.2)
  else if var = MAX_DEFAULT_SIZE_RANGE then
    let r := parse_or_warn parseUsize value c.max_default_size_range
    ({ c with max_default_size_range := r.1 }, r.2)
  else if var = VERBOSE then
    let r := parse_or_warn parseU32 value c.verbose
    ({ c with verbose := r.1 }, r.2)
  else if var = RNG_ALGORITHM then
    let r := parse_or_warn RngAlgorithm.from_str value c.rng_algorithm
    ({ c with rng_algorithm := r.1 }, r.2)
  else if var = RNG_SEED then
    let existing_seed := c.rng_seed
    let r := parse_or_warn rngSeedParse value c.rng_seed
    let c := { c with rng_seed := r.1 }
    match c.rng_seed with
    | .FullHexEncodedSeed seed =>
      match c.rng_algorithm with
      | .XorShift =>
        if seed.length ≠ 16 then ({ c with rng_seed := existing_seed }, r.2 + 1)
        else (c, r.2)
      | .ChaCha =>
        if seed.length ≠ 32 then ({ c with rng_seed := existing_seed }, r.2 + 1)
        else (c, r.2)
    | _ => (c, r.2)
  else if var = DISABLE_FAILURE_PERSISTENCE then
    ({ c with failure_persistence := false }, 0)
  else if var.take 9 = "PROPTEST_".toList then (c, 1)
  else (c, 0)

/-- Embeds `contextualize_config`: fold the per-variable handler over
the environment entries, accumulating the warning count. -/
def contextualize_config (env : List (List Char × Option (List Char)))
    (c : Config) : Config × Nat :=
  env.foldl (fun acc kv =>
    let r := applyEnvVar acc.1 kv.1 kv.2
    (r.1, acc.2 + r.2)) (c, 0)

/-- A `FlattenValueTree` state in which every further complication
channel is closed: no regeneration credit, both `Fuse` complication
latches shut, and no remembered `last_complication`.  From such a state
`complicate` must keep returning false until a `simplify` succeeds. -/
def Flatten.dead (s : Flatten.State σm σi) : Bool :=
  decide (s.complicate_regen_remaining = 0)
    && !s.meta.may_complicate
    && !s.current.may_complicate
    && s.last_complication.isNone

/-! ## Concrete instances used by witnesses and counterexamples -/

/-- An inner tree whose shrink operations always refuse and never move:
the simplest tree satisfying the ValueTree contract. -/
def vtConst : ValueTreeI Nat Nat where
  current := fun n => n
  simplify := fun n => (false, n)
  complicate := fun n => (false, n)

/-- An inner tree on even numbers: `simplify` steps down by 2 while
possible, `complicate` steps back up by 2; parity is preserved. -/
def vtEven : ValueTreeI Nat Nat where
  current := fun n => n
  simplify := fun n => if 2 ≤ n then (true, n - 2) else (false, n)
  complicate := fun n => (true, n + 2)

/-- The evenness predicate used with `vtEven`. -/
def evenPred : Nat → Bool := fun n => n % 2 == 0

/-- A tree whose `simplify` succeeds by stepping down to 0 and whose
`complicate` always refuses. -/
def vtDown : ValueTreeI Nat Nat where
  current := fun n => n
  simplify := fun n => if 1 ≤ n then (true, n - 1) else (false, n)
  complicate := fun n => (false, n)

/-- An inner `new_tree` that fails (rejects the draw) exactly when the
abstract RNG counter is 2 or 3, consuming one RNG step per draw.  Used
to exhibit a `FlattenValueTree` whose `complicate` returns false and
then true again. -/
def drawFlaky (m : Nat) (r : TestRunner) : Option Nat × TestRunner :=
  (if r.rng = 2 ∨ r.rng = 3 then none else some m, { r with rng := r.rng + 1 })

/-- An inner `new_tree` that always succeeds, returning the meta value
itself as the inner tree state. -/
def drawOk (m : Nat) (r : TestRunner) : Option Nat × TestRunner := (some m, r)

/-! # Theorems -/

/-- C4, counterexample.  The claim says the "is this the final minimal
case" signal is passed as an explicit flag argument so that an inner
run's minimal-case execution cannot change the signal observed by an
enclosing run.  In the code the signal is the thread-local cell
`IS_MINIMAL_CASE`: here the enclosing run has entered its minimal-case
execution (`begin_minimal_case`), a nested inner run enters and finishes
its own minimal case (`begin_minimal_case` then the guard's `Drop`), and
the enclosing run now observes `false` — the inner run clobbered the
enclosing run's signal. -/
theorem claim_C4_counterexample :
    ¬ (MinimalCase.is_minimal_case
        (MinimalCase.guard_drop
          (MinimalCase.begin_minimal_case
            (MinimalCase.begin_minimal_case false))) = true) := by
  decide

/-- C4, amended: the minimal-case signal is kept in the thread-local
cell `IS_MINIMAL_CASE`, set to `true` by `MinimalCaseGuard::
begin_minimal_case` and unconditionally reset to `false` when the guard
drops, regardless of the value the cell held before the guard was
created; consequently nested property-test runs are not re-entrant-safe
(the code's own documentation declares nested behaviour undefined). -/
theorem claim_C4_amended :
    (∀ flag, MinimalCase.is_minimal_case
      (MinimalCase.begin_minimal_case flag) = true)
  ∧ (∀ flag, MinimalCase.is_minimal_case
      (MinimalCase.guard_drop flag) = false) :=
  ⟨fun _ => rfl, fun _ => rfl⟩

/-- C7: the effective shrink-iteration ceiling
(`Config::max_shrink_iters()`) is `cases` times 4, saturating at
`u32::MAX`, exactly when the stored field holds the default sentinel
`u32::MAX` (which `default_default_config` does), and is the stored
field verbatim otherwise. -/
theorem claim_C7_effective_shrink_iters (c : Config) :
    (c.max_shrink_iters = u32Max →
      c.max_shrink_iters_eff = min (c.cases * 4) u32Max)
  ∧ (c.max_shrink_iters ≠ u32Max →
      c.max_shrink_iters_eff = c.max_shrink_iters)
  ∧ default_default_config.max_shrink_iters = u32Max := by
  refine ⟨fun h => ?_, fun h => ?_, rfl⟩
  · simp [Config.max_shrink_iters_eff, satMul32, h]
  · rw [Config.max_shrink_iters_eff, if_neg fun hh => h hh.symm]

/-- C7, witness: the default configuration takes the automatic
`4 × cases` branch; a configuration with any other stored value (here 7)
keeps it verbatim. -/
theorem claim_C7_witness :
    (default_default_config.max_shrink_iters_eff
      = min (default_default_config.cases * 4) u32Max)
  ∧ (({ default_default_config with max_shrink_iters := 7 } : Config).max_shrink_iters_eff = 7) :=
  ⟨(claim_C7_effective_shrink_iters default_default_config).1 rfl,
   (claim_C7_effective_shrink_iters
      { default_default_config with max_shrink_iters := 7 }).2.1 (by decide)⟩

/-- Helper: `ensure_acceptable` only returns states satisfying the
predicate (it returns in its `pred`-true branch alone). -/
theorem ensure_acceptable_ret_pred (vt : ValueTreeI σ α) (pred : α → Bool) :
    ∀ fuel s s', Filter.ensure_acceptable vt pred fuel s = .ret s' →
      pred (vt.current s') = true := by
  intro fuel
  induction fuel with
  | zero =>
    intro s s' h
    unfold Filter.ensure_acceptable at h
    by_cases hp : pred (vt.current s) = true
    · simp only [hp, if_true] at h
      cases h
      exact hp
    · simp [hp] at h
  | succ n ih =>
    intro s s' h
    unfold Filter.ensure_acceptable at h
    by_cases hp : pred (vt.current s) = true
    · simp only [hp, if_true] at h
      cases h
      exact hp
    · simp only [hp] at h
      by_cases hcb : (vt.complicate s).1 = true
      · simp only [hcb, if_true] at h
        exact ih _ _ h
      · simp [hcb] at h

/-- Helper: with the predicate failing and the inner `complicate`
refusing, `ensure_acceptable` panics on its first iteration. -/
theorem ensure_acceptable_panicked (vt : ValueTreeI σ α) (pred : α → Bool)
    (s : σ) (hpred : pred (vt.current s) = false)
    (hcompl : (vt.complicate s).1 = false) :
    ∀ fuel, Filter.ensure_acceptable vt pred (fuel + 1) s = .panicked := by
  intro fuel
  unfold Filter.ensure_acceptable
  simp [hpred, hcompl]

/-- C6: if a Filter shrink step (a successful inner `simplify`) lands on
a value failing the predicate and the inner `complicate` is exhausted
(returns false) before the predicate is re-satisfied, `FilterValueTree::
simplify` panics — it never produces a normal return (so in particular
no `false` return and no `Reject`/`Fail` outcome, which its `bool`
return type could not even express). -/
theorem claim_C6_filter_exhaustion_panics (vt : ValueTreeI σ α)
    (pred : α → Bool) (s s₁ : σ)
    (hsimp : vt.simplify s = (true, s₁))
    (hpred : pred (vt.current s₁) = false)
    (hcompl : (vt.complicate s₁).1 = false) :
    (∀ fuel, Filter.simplify vt pred (fuel + 1) s = .panicked)
  ∧ (∀ fuel b s', Filter.simplify vt pred fuel s ≠ .ret (b, s')) := by
  constructor
  · intro fuel
    simp only [Filter.simplify, hsimp]
    rw [ensure_acceptable_panicked vt pred s₁ hpred hcompl fuel]
    simp
  · intro fuel b s'
    cases fuel with
    | zero =>
      simp only [Filter.simplify, hsimp]
      unfold Filter.ensure_acceptable
      simp [hpred]
    | succ n =>
      simp only [Filter.simplify, hsimp]
      rw [ensure_acceptable_panicked vt pred s₁ hpred hcompl n]
      simp

/-- C6, witness: at the concrete tree `vtDown` from state 2, `simplify`
steps to 1, `evenPred 1` fails, and `vtDown.complicate` refuses, so the
combinator panics. -/
theorem claim_C6_witness :
    Filter.simplify vtDown evenPred 1 2 = .panicked :=
  (claim_C6_filter_exhaustion_panics vtDown evenPred 2 1 (by decide)
    (by decide) (by decide)).1 0

/-- C1: the Filter invariant.  Under the ValueTree contract assumption
that a refused `simplify`/`complicate` does not change `current()`
(`hs`/`hc`), the predicate holds on `current()` after every successful
`new_value` and after every `simplify`/`complicate` call of
`FilterValueTree` that returns: a shrink step that lands on a failing
value is repaired by `ensure_acceptable`, which repeatedly complicates
the inner tree and only ever returns at a value satisfying the
predicate. -/
theorem claim_C1_filter_invariant (vt : ValueTreeI σ α) (pred : α → Bool)
    (draw : ρ → Except Unit (σ × ρ)) (reject_local : ρ → Except Unit ρ)
    (hs : ∀ t, (vt.simplify t).1 = false →
      vt.current (vt.simplify t).2 = vt.current t)
    (hc : ∀ t, (vt.complicate t).1 = false →
      vt.current (vt.complicate t).2 = vt.current t) :
    (∀ fuel r s r',
      Filter.new_value vt pred draw reject_local fuel r = .ok s r' →
      pred (vt.current s) = true)
  ∧ (∀ fuel s b s', pred (vt.current s) = true →
      Filter.simplify vt pred fuel s = .ret (b, s') →
      pred (vt.current s') = true)
  ∧ (∀ fuel s b s', pred (vt.current s) = true →
      Filter.complicate vt pred fuel s = .ret (b, s') →
      pred (vt.current s') = true) := by
  refine ⟨?_, ?_, ?_⟩
  · intro fuel
    induction fuel with
    | zero =>
      intro r s r' h
      unfold Filter.new_value at h
      cases h
    | succ n ih =>
      intro r s r' h
      unfold Filter.new_value at h
      cases hd : draw r with
      | error e => rw [hd] at h; cases h
      | ok p =>
        rw [hd] at h
        by_cases hp : pred (vt.current p.1) = true
        · simp only [hp, if_true] at h
          cases h
          exact hp
        · simp only [hp] at h
          cases hr : reject_local p.2 with
          | error e => rw [hr] at h; simp at h
          | ok r₁ =>
            rw [hr] at h
            simp only [Bool.false_eq_true, if_false] at h
            exact ih r₁ s r' h
  · intro fuel s b s' hpre h
    unfold Filter.simplify at h
    cases hb : (vt.simplify s).1 with
    | false =>
      simp only [hb, Bool.false_eq_true, if_false] at h
      cases h
      rw [hs s hb]
      exact hpre
    | true =>
      simp only [hb, if_true] at h
      cases he : Filter.ensure_acceptable vt pred fuel (vt.simplify s).2 with
      | ret s₂ =>
        rw [he] at h
        cases h
        exact ensure_acceptable_ret_pred vt pred _ _ _ he
      | panicked => rw [he] at h; cases h
      | fuelOut => rw [he] at h; cases h
  · intro fuel s b s' hpre h
    unfold Filter.complicate at h
    cases hb : (vt.complicate s).1 with
    | false =>
      simp only [hb, Bool.false_eq_true, if_false] at h
      cases h
      rw [hc s hb]
      exact hpre
    | true =>
      simp only [hb, if_true] at h
      cases he : Filter.ensure_acceptable vt pred fuel (vt.complicate s).2 with
      | ret s₂ =>
        rw [he] at h
        cases h
        exact ensure_acceptable_ret_pred vt pred _ _ _ he
      | panicked => rw [he] at h; cases h
      | fuelOut => rw [he] at h; cases h

/-- C1, witness: on the parity-preserving tree `vtEven` with the
evenness predicate, a returning `simplify` from the even value 4 leaves
`current()` even. -/
theorem claim_C1_witness :
    evenPred (vtEven.current 2) = true :=
  (claim_C1_filter_invariant (ρ := Unit) vtEven evenPred
      (fun r => .ok (4, r)) (fun r => .ok r)
      (fun t ht => by
        simp only [vtEven] at ht ⊢
        by_cases h2 : 2 ≤ t
        · simp [h2] at ht
        · simp [h2])
      (fun t ht => by simp [vtEven] at ht)).2.1
    0 4 true 2 (by decide) rfl

/-- Helper: decoding a hex digit recovers its value. -/
theorem hexVal_hexDigit : ∀ n : Fin 16, hexVal (hexDigit n.val) = some n.val := by
  decide

/-- Helper: hex digits are not the separator `-`. -/
theorem hexDigit_ne_dash : ∀ n : Fin 16, hexDigit n.val ≠ '-' := by decide

/-- Helper: hex digits are not the sign `+`. -/
theorem hexDigit_ne_plus : ∀ n : Fin 16, hexDigit n.val ≠ '+' := by decide

/-- Helper: `from_str_radix` decodes the 2-digit rendering of a byte. -/
theorem from_str_radix16_pair (b : Nat) (hb : b < 256) :
    from_str_radix16 [hexDigit (b / 16), hexDigit (b % 16)] = some b := by
  have h1 : b / 16 < 16 := Nat.div_lt_of_lt_mul (by omega)
  have h2 : b % 16 < 16 := Nat.mod_lt _ (by norm_num)
  have e1 : hexVal (hexDigit (b / 16)) = some (b / 16) :=
    hexVal_hexDigit ⟨b / 16, h1⟩
  have e2 : hexVal (hexDigit (b % 16)) = some (b % 16) :=
    hexVal_hexDigit ⟨b % 16, h2⟩
  have hplus : stripPlus [hexDigit (b / 16), hexDigit (b % 16)]
      = [hexDigit (b / 16), hexDigit (b % 16)] := by
    simp [stripPlus, hexDigit_ne_plus ⟨b / 16, h1⟩]
  have hf : List.foldl hexStep (some 0)
      [hexDigit (b / 16), hexDigit (b % 16)] = some (b / 16 * 16 + b % 16) := by
    simp [List.foldl, hexStep, e1, e2]
  unfold from_str_radix16
  rw [hplus]
  show (List.foldl hexStep (some 0) [hexDigit (b / 16), hexDigit (b % 16)]).bind
      (fun v => if v < 256 then some v else none) = some b
  rw [hf, Option.some_bind, show b / 16 * 16 + b % 16 = b from by omega, if_pos hb]

/-- Helper: splitting a dash-free list yields a single segment. -/
theorem splitDash_no_dash : ∀ l : List Char, '-' ∉ l → splitDash l = [l] := by
  intro l
  induction l with
  | nil => intro _; rfl
  | cons c rest ih =>
    intro hnd
    have hc : c ≠ '-' := fun h => hnd (h ▸ List.mem_cons_self c rest)
    have hrest : '-' ∉ rest := fun h => hnd (List.mem_cons_of_mem c h)
    unfold splitDash
    rw [if_neg hc, ih hrest]

/-- Helper: the single unfolding of `splitDash` on a nonempty list. -/
theorem splitDash_cons (c : Char) (l : List Char) :
    splitDash (c :: l) = if c = '-' then [] :: splitDash l
      else match splitDash l with
        | seg :: segs => (c :: seg) :: segs
        | [] => [[c]] := rfl

/-- Helper: splitting at the first dash separates the dash-free head. -/
theorem splitDash_append :
    ∀ (seg rest : List Char), '-' ∉ seg →
      splitDash (seg ++ '-' :: rest) = seg :: splitDash rest := by
  intro seg
  induction seg with
  | nil =>
    intro rest _
    rw [List.nil_append, splitDash_cons, if_pos rfl]
  | cons c s ih =>
    intro rest hnd
    have hc : c ≠ '-' := fun h => hnd (h ▸ List.mem_cons_self c s)
    have hs : '-' ∉ s := fun h => hnd (List.mem_cons_of_mem c h)
    rw [List.cons_append, splitDash_cons, if_neg hc, ih rest hs]

/-- Helper: a first character other than `-` heads the first segment. -/
theorem splitDash_cons_ne (c : Char) (hc : c ≠ '-') (l : List Char) :
    ∃ seg segs, splitDash (c :: l) = (c :: seg) :: segs := by
  unfold splitDash
  rw [if_neg hc]
  cases h : splitDash l with
  | nil => exact ⟨[], [], rfl⟩
  | cons seg segs => exact ⟨seg, segs, rfl⟩

/-- Helper: `to_base16` renders two characters per byte. -/
theorem to_base16_length :
    ∀ bytes : List Nat, (to_base16 bytes).length = 2 * bytes.length := by
  intro bytes
  induction bytes with
  | nil => rfl
  | cons b rest ih =>
    show (to_base16 (b :: rest)).length = 2 * (rest.length + 1)
    unfold to_base16
    simp only [List.length_cons, ih]
    omega

/-- Helper: the base-16 rendering of bytes contains no dash. -/
theorem to_base16_no_dash :
    ∀ bytes : List Nat, (∀ b ∈ bytes, b < 256) → '-' ∉ to_base16 bytes := by
  intro bytes
  induction bytes with
  | nil => intro _ h; cases h
  | cons b rest ih =>
    intro hb h
    have hblt : b < 256 := hb b (List.mem_cons_self b rest)
    have h1 : b / 16 < 16 := Nat.div_lt_of_lt_mul (by omega)
    have h2 : b % 16 < 16 := Nat.mod_lt _ (by norm_num)
    rw [show to_base16 (b :: rest)
        = hexDigit (b / 16) :: hexDigit (b % 16) :: to_base16 rest from rfl] at h
    simp only [List.mem_cons] at h
    rcases h with h | h | h
    · exact hexDigit_ne_dash ⟨b / 16, h1⟩ h.symm
    · exact hexDigit_ne_dash ⟨b % 16, h2⟩ h.symm
    · exact ih (fun x hx => hb x (List.mem_cons_of_mem b hx)) h

/-- Helper: chunking the base-16 rendering recovers the per-byte digit
pairs. -/
theorem chunks2_to_base16 :
    ∀ bytes : List Nat, chunks2 (to_base16 bytes)
      = bytes.map fun b => [hexDigit (b / 16), hexDigit (b % 16)] := by
  intro bytes
  induction bytes with
  | nil => rfl
  | cons b rest ih =>
    show chunks2 (hexDigit (b / 16) :: hexDigit (b % 16) :: to_base16 rest) = _
    unfold chunks2
    rw [ih]
    rfl

/-- Helper: the zip loop decodes each byte of a well-formed rendering. -/
theorem fromBase16Go_map :
    ∀ bytes : List Nat, (∀ b ∈ bytes, b < 256) →
      fromBase16Go (List.replicate bytes.length 0)
        (bytes.map fun b => [hexDigit (b / 16), hexDigit (b % 16)])
      = (some (), bytes) := by
  intro bytes
  induction bytes with
  | nil => intro _; rfl
  | cons b rest ih =>
    intro hb
    have hblt : b < 256 := hb b (List.mem_cons_self b rest)
    show fromBase16Go (0 :: List.replicate rest.length 0)
        ([hexDigit (b / 16), hexDigit (b % 16)]
          :: rest.map fun x => [hexDigit (x / 16), hexDigit (x % 16)])
      = (some (), b :: rest)
    unfold fromBase16Go
    rw [from_str_radix16_pair b hblt,
      ih (fun x hx => hb x (List.mem_cons_of_mem b hx))]

/-- Helper: the zip loop preserves the destination length. -/
theorem fromBase16Go_len :
    ∀ (dst : List Nat) (chs : List (List Char)),
      (fromBase16Go dst chs).2.length = dst.length := by
  intro dst
  induction dst with
  | nil => intro chs; cases chs <;> rfl
  | cons d ds ih =>
    intro chs
    cases chs with
    | nil => rfl
    | cons ch rest =>
      unfold fromBase16Go
      cases h : from_str_radix16 ch with
      | some v => simp [ih rest]
      | none => simp

/-- Helper: decoding the base-16 rendering into a zeroed buffer of the
right size recovers the original bytes. -/
theorem from_base16_to_base16 :
    ∀ bytes : List Nat, (∀ b ∈ bytes, b < 256) →
      from_base16 (List.replicate bytes.length 0) (to_base16 bytes)
        = (some (), bytes) := by
  intro bytes hb
  unfold from_base16
  rw [to_base16_length, List.length_replicate]
  rw [if_neg (by omega), chunks2_to_base16]
  exact fromBase16Go_map bytes hb

/-- Helper: the digit fold is absorbing once a bad digit is seen. -/
theorem foldl_decStep_none : ∀ l : List Char, l.foldl decStep none = none := by
  intro l
  induction l with
  | nil => rfl
  | cons c rest ih =>
    show List.foldl decStep (decStep none c) rest = none
    rw [show decStep none c = none from rfl]
    exact ih

/-- Helper: a string starting with `u` is not a `u64`. -/
theorem parseU64_u_cons : ∀ l : List Char, parseU64 ('u' :: l) = none := by
  intro l
  unfold parseU64 parseUnsigned
  rw [show stripPlus ('u' :: l) = 'u' :: l from by simp [stripPlus]]
  show (List.foldl decStep (decStep (some 0) 'u') l).bind
      (fun v => if v < 2 ^ 64 then some v else none) = none
  rw [show decStep (some 0) 'u' = none from rfl, foldl_decStep_none]
  rfl

/-- Helper: a string starting with `r` is not a `u64`. -/
theorem parseU64_r_cons : ∀ l : List Char, parseU64 ('r' :: l) = none := by
  intro l
  unfold parseU64 parseUnsigned
  rw [show stripPlus ('r' :: l) = 'r' :: l from by simp [stripPlus]]
  show (List.foldl decStep (decStep (some 0) 'r') l).bind
      (fun v => if v < 2 ^ 64 then some v else none) = none
  rw [show decStep (some 0) 'r' = none from rfl, foldl_decStep_none]
  rfl

/-- C9: the textual encoding of `RngSeed` round-trips through
`Display`/`FromStr` only for `FullHexEncodedSeed`: parsing the rendered
`hex-{s}` recovers an equal seed, while the renderings of `Fixed`
(`u64-{n}`) and `Random` (`random`) are both rejected by
`RngSeed::from_str`. -/
theorem claim_C9_display_roundtrip :
    (∀ bytes : List Nat, (∀ b ∈ bytes, b < 256) →
      RngSeed.from_str (RngSeed.display (.FullHexEncodedSeed bytes))
        = .ok (.FullHexEncodedSeed bytes))
  ∧ (∀ n : Nat, RngSeed.from_str (RngSeed.display (.Fixed n)) = .error ())
  ∧ RngSeed.from_str (RngSeed.display .Random) = .error () := by
  refine ⟨?_, ?_, rfl⟩
  · intro bytes hb
    have hnd : '-' ∉ to_base16 bytes := to_base16_no_dash bytes hb
    have hsplit : splitDash (['h', 'e', 'x', '-'] ++ to_base16 bytes)
        = ['h', 'e', 'x'] :: [to_base16 bytes] := by
      rw [show (['h', 'e', 'x', '-'] ++ to_base16 bytes)
          = ['h', 'e', 'x'] ++ '-' :: to_base16 bytes from rfl,
        splitDash_append _ _ (by decide), splitDash_no_dash _ hnd]
    show RngSeed.from_str (['h', 'e', 'x', '-'] ++ to_base16 bytes)
      = .ok (.FullHexEncodedSeed bytes)
    unfold RngSeed.from_str
    rw [hsplit]
    simp only [if_pos rfl]
    rw [to_base16_length,
      show 2 * bytes.length / 2 = bytes.length from
        Nat.mul_div_cancel_left _ (by norm_num),
      from_base16_to_base16 bytes hb]
    simp
  · intro n
    have hc : ('u' : Char) ≠ '-' := by decide
    obtain ⟨seg, segs, hsp⟩ := splitDash_cons_ne 'u' hc ('6' :: '4' :: '-' :: natDec n)
    have hne : ('u' :: seg) ≠ ['h', 'e', 'x'] := by simp
    show RngSeed.from_str ('u' :: '6' :: '4' :: '-' :: natDec n) = .error ()
    unfold RngSeed.from_str
    rw [hsp]
    simp [hne, parseU64_u_cons]

/-- C9, witness: the two-byte seed `[0, 255]` round-trips. -/
theorem claim_C9_witness :
    RngSeed.from_str (RngSeed.display (.FullHexEncodedSeed [0, 255]))
      = .ok (.FullHexEncodedSeed [0, 255]) :=
  claim_C9_display_roundtrip.1 [0, 255] (by decide)

/-- C10: `RngSeed::from_str` accepts every input `hex-{p}` whose payload
contains no further dash: the `Option` returned by `from_base16` is
discarded, so the result is always `Ok(FullHexEncodedSeed(buf))` over
the half-length buffer — zero-filled whenever the payload length is odd
(the `from_base16` length check fails before anything is written), and
in general containing whatever prefix decoded before a bad chunk. -/
theorem claim_C10_hex_parse_ignores_decode_failure (p : List Char)
    (hnd : '-' ∉ p) :
    RngSeed.from_str (['h', 'e', 'x', '-'] ++ p)
      = .ok (.FullHexEncodedSeed
          (from_base16 (List.replicate (p.length / 2) 0) p).2)
  ∧ (from_base16 (List.replicate (p.length / 2) 0) p).2.length = p.length / 2
  ∧ (p.length % 2 = 1 →
      (from_base16 (List.replicate (p.length / 2) 0) p).2
        = List.replicate (p.length / 2) 0) := by
  refine ⟨?_, ?_, ?_⟩
  · have hsplit : splitDash (['h', 'e', 'x', '-'] ++ p)
        = ['h', 'e', 'x'] :: [p] := by
      rw [show (['h', 'e', 'x', '-'] ++ p)
          = ['h', 'e', 'x'] ++ '-' :: p from rfl,
        splitDash_append _ _ (by decide), splitDash_no_dash _ hnd]
    unfold RngSeed.from_str
    rw [hsplit]
    simp
  · unfold from_base16
    by_cases hlen : (List.replicate (p.length / 2) (0 : Nat)).length * 2 ≠ p.length
    · rw [if_pos hlen]
      simp
    · rw [if_neg hlen, fromBase16Go_len]
      simp
  · intro hodd
    unfold from_base16
    rw [if_pos (by simp only [List.length_replicate]; omega)]

/-- C10, witness: `hex-zz` — an invalid hex payload — still parses as
`Ok`, yielding the untouched zero buffer `[0]`. -/
theorem claim_C10_witness :
    ('-' ∉ ['z', 'z'])
  ∧ (RngSeed.from_str (['h', 'e', 'x', '-'] ++ ['z', 'z'])
      = .ok (.FullHexEncodedSeed
          (from_base16 (List.replicate (['z', 'z'].length / 2) 0) ['z', 'z']).2)
  ∧ (from_base16 (List.replicate (['z', 'z'].length / 2) 0) ['z', 'z']).2.length
      = ['z', 'z'].length / 2
  ∧ (['z', 'z'].length % 2 = 1 →
      (from_base16 (List.replicate (['z', 'z'].length / 2) 0) ['z', 'z']).2
        = List.replicate (['z', 'z'].length / 2) 0)) :=
  ⟨by decide, claim_C10_hex_parse_ignores_decode_failure ['z', 'z'] (by decide)⟩

/-- Helper: the two unfolding equations of the array scan loop. -/
theorem simplifyGo_zero (vt : ValueTreeI σ α) (tree : List σ) (sh : Nat) :
    ArrayTree.simplifyGo vt 0 tree sh = (false, tree, sh) := rfl

/-- Helper: one unfolding of the array scan loop. -/
theorem simplifyGo_succ (vt : ValueTreeI σ α) (fuel : Nat) (tree : List σ)
    (sh : Nat) :
    ArrayTree.simplifyGo vt (fuel + 1) tree sh =
      if h : sh < tree.length then
        if (vt.simplify (tree.get ⟨sh, h⟩)).1 then
          (true, tree.set sh (vt.simplify (tree.get ⟨sh, h⟩)).2, sh)
        else ArrayTree.simplifyGo vt fuel
          (tree.set sh (vt.simplify (tree.get ⟨sh, h⟩)).2) (sh + 1)
      else (false, tree, sh) := rfl

/-- Helper: full characterisation of the array scan loop: it scans
upward from `sh`, leaves slots below `sh` untouched, and either fails
having seen every slot from `sh` on refuse, or stops at the first slot
`k` whose `simplify` succeeds, updating exactly that slot (and the
refused ones before it) and touching nothing beyond `k`. -/
theorem simplifyGo_spec (vt : ValueTreeI σ α) :
    ∀ (fuel : Nat) (tree : List σ) (sh : Nat) (b : Bool) (t' : List σ)
      (k : Nat), sh ≤ tree.length → tree.length ≤ sh + fuel →
      ArrayTree.simplifyGo vt fuel tree sh = (b, t', k) →
      t'.length = tree.length
      ∧ (∀ j, j < sh → t'[j]? = tree[j]?)
      ∧ sh ≤ k
      ∧ (b = false → k = tree.length ∧
          (∀ j x, sh ≤ j → tree[j]? = some x → (vt.simplify x).1 = false))
      ∧ (b = true → k < tree.length ∧
          (∀ x, tree[k]? = some x → (vt.simplify x).1 = true ∧
            t'[k]? = some (vt.simplify x).2) ∧
          (∀ j x, sh ≤ j → j < k → tree[j]? = some x →
            (vt.simplify x).1 = false) ∧
          (∀ j, k < j → t'[j]? = tree[j]?)) := by
  intro fuel
  induction fuel with
  | zero =>
    intro tree sh b t' k hsh hlen heq
    rw [simplifyGo_zero] at heq
    simp only [Prod.mk.injEq] at heq
    obtain ⟨rfl, rfl, rfl⟩ := heq
    refine ⟨rfl, fun j _ => rfl, Nat.le_refl _, fun _ => ⟨by omega, ?_⟩,
      fun hT => by cases hT⟩
    intro j x hj hx
    rw [List.getElem?_eq_none (by omega)] at hx
    cases hx
  | succ n ih =>
    intro tree sh b t' k hsh hlen heq
    rw [simplifyGo_succ] at heq
    by_cases h : sh < tree.length
    · rw [dif_pos h] at heq
      cases hb : (vt.simplify (tree.get ⟨sh, h⟩)).1 with
      | true =>
        rw [if_pos hb] at heq
        simp only [Prod.mk.injEq] at heq
        obtain ⟨rfl, rfl, rfl⟩ := heq
        have hx0 : tree[sh]? = some (tree.get ⟨sh, h⟩) := by
          rw [List.getElem?_eq_getElem h, List.get_eq_getElem]
        refine ⟨List.length_set tree sh _,
          fun j hj => List.getElem?_set_ne (by omega),
          Nat.le_refl _, ?_, ?_⟩
        · intro hF
          exact nomatch hF
        intro _
        refine ⟨h, ?_, ?_, ?_⟩
        · intro x hx
          rw [hx0] at hx
          cases hx
          exact ⟨hb, List.getElem?_set_eq_of_lt _ h⟩
        · intro j x hj hjk _
          omega
        · intro j hj
          exact List.getElem?_set_ne (by omega)
      | false =>
        rw [if_neg (by rw [hb]; exact fun hh => nomatch hh)] at heq
        have hset : (tree.set sh (vt.simplify (tree.get ⟨sh, h⟩)).2).length
            = tree.length := List.length_set tree sh _
        obtain ⟨ih1, ih2, ih3, ih4, ih5⟩ :=
          ih (tree.set sh (vt.simplify (tree.get ⟨sh, h⟩)).2) (sh + 1) b t' k
            (by omega) (by omega) heq
        have hx0 : tree[sh]? = some (tree.get ⟨sh, h⟩) := by
          rw [List.getElem?_eq_getElem h, List.get_eq_getElem]
        have hkeep : ∀ j, j ≠ sh →
            (tree.set sh (vt.simplify (tree.get ⟨sh, h⟩)).2)[j]? = tree[j]? :=
          fun j hj => List.getElem?_set_ne (fun hh => hj hh.symm)
        refine ⟨by omega, ?_, by omega, ?_, ?_⟩
        · intro j hj
          rw [ih2 j (by omega), hkeep j (by omega)]
        · intro hF
          obtain ⟨hk, hall⟩ := ih4 hF
          refine ⟨by omega, ?_⟩
          intro j x hj hx
          rcases Nat.eq_or_lt_of_le hj with hj' | hj'
          · rw [← hj', hx0] at hx
            cases hx
            exact hb
          · exact hall j x (by omega) (by rw [hkeep j (by omega)]; exact hx)
        · intro hT
          obtain ⟨hk, hslot, hbefore, hafter⟩ := ih5 hT
          have hksh : sh + 1 ≤ k := ih3
          refine ⟨by omega, ?_, ?_, ?_⟩
          · intro x hx
            exact hslot x (by rw [hkeep k (by omega)]; exact hx)
          · intro j x hj hjk hx
            rcases Nat.eq_or_lt_of_le hj with hj' | hj'
            · rw [← hj', hx0] at hx
              cases hx
              exact hb
            · exact hbefore j x (by omega) hjk
                (by rw [hkeep j (by omega)]; exact hx)
          · intro j hj
            rw [hafter j hj, hkeep j (by omega)]
    · rw [dif_neg h] at heq
      simp only [Prod.mk.injEq] at heq
      obtain ⟨rfl, rfl, rfl⟩ := heq
      refine ⟨rfl, fun j _ => rfl, Nat.le_refl _, fun _ => ⟨by omega, ?_⟩,
        fun hT => by cases hT⟩
      intro j x hj hx
      rw [List.getElem?_eq_none (by omega)] at hx
      cases hx

/-- C5: the fixed-size product tree.  `simplify()` scans the slots in
increasing index order from the persistent scan position, simplifies the
first slot whose own `simplify` succeeds, records that slot, and never
revisits (or modifies) any earlier slot; on failure it has seen every
remaining slot refuse and records nothing new.  `complicate()` retries
exactly the recorded slot — returning its refusal as `false` and
clearing the record — and with no recorded slot returns `false` without
touching anything. -/
theorem claim_C5_array_product (vt : ValueTreeI σ α) (s : ArrayTree.State σ)
    (hsh : s.shrinker ≤ s.tree.length) :
    (∀ s', ArrayTree.simplify vt s = (true, s') →
      s'.tree.length = s.tree.length
      ∧ ∃ k, s'.shrinker = k ∧ s'.last_shrinker = some k
        ∧ s.shrinker ≤ k ∧ k < s.tree.length
        ∧ (∀ x, s.tree[k]? = some x → (vt.simplify x).1 = true
            ∧ s'.tree[k]? = some (vt.simplify x).2)
        ∧ (∀ j x, s.shrinker ≤ j → j < k → s.tree[j]? = some x →
            (vt.simplify x).1 = false)
        ∧ (∀ j, j < s.shrinker → s'.tree[j]? = s.tree[j]?)
        ∧ (∀ j, k < j → s'.tree[j]? = s.tree[j]?))
  ∧ (∀ s', ArrayTree.simplify vt s = (false, s') →
      s'.shrinker = s.tree.length ∧ s'.last_shrinker = s.last_shrinker
      ∧ (∀ j x, s.shrinker ≤ j → s.tree[j]? = some x →
          (vt.simplify x).1 = false)
      ∧ (∀ j, j < s.shrinker → s'.tree[j]? = s.tree[j]?))
  ∧ (s.last_shrinker = none → ArrayTree.complicate vt s = some (false, s))
  ∧ (∀ k x, s.last_shrinker = some k → s.tree[k]? = some x →
      ArrayTree.complicate vt s
        = some ((vt.complicate x).1,
            ⟨s.tree.set k (vt.complicate x).2, k,
              if (vt.complicate x).1 then some k else none⟩)
      ∧ (∀ j, j ≠ k →
          (s.tree.set k (vt.complicate x).2)[j]? = s.tree[j]?)) := by
  have hgo := simplifyGo_spec vt (s.tree.length - s.shrinker) s.tree s.shrinker
  refine ⟨?_, ?_, ?_, ?_⟩
  · intro s' heq
    rcases hg : ArrayTree.simplifyGo vt (s.tree.length - s.shrinker) s.tree
        s.shrinker with ⟨b0, t0, k0⟩
    unfold ArrayTree.simplify at heq
    rw [hg] at heq
    obtain ⟨h1, h2, h3, _, h5⟩ := hgo b0 t0 k0 hsh (by omega) hg
    cases b0 with
    | false => rw [if_neg (fun hh => nomatch hh)] at heq; cases heq
    | true =>
      rw [if_pos rfl] at heq
      simp only [Prod.mk.injEq] at heq
      obtain ⟨-, rfl⟩ := heq
      obtain ⟨hk, hslot, hbefore, hafter⟩ := h5 rfl
      exact ⟨h1, k0, rfl, rfl, h3, hk, hslot, hbefore, h2, hafter⟩
  · intro s' heq
    rcases hg : ArrayTree.simplifyGo vt (s.tree.length - s.shrinker) s.tree
        s.shrinker with ⟨b0, t0, k0⟩
    unfold ArrayTree.simplify at heq
    rw [hg] at heq
    obtain ⟨h1, h2, h3, h4, -⟩ := hgo b0 t0 k0 hsh (by omega) hg
    cases b0 with
    | true => rw [if_pos rfl] at heq; cases heq
    | false =>
      rw [if_neg (fun hh => nomatch hh)] at heq
      simp only [Prod.mk.injEq] at heq
      obtain ⟨-, rfl⟩ := heq
      obtain ⟨hk, hall⟩ := h4 rfl
      exact ⟨hk, rfl, hall, h2⟩
  · intro hnone
    unfold ArrayTree.complicate
    rw [hnone]
  · intro k x hsk hx
    constructor
    · simp only [ArrayTree.complicate, hsk, hx]
      cases hc : (vt.complicate x).1 with
      | true => simp [hc]
      | false => simp [hc]
    · intro j hj
      exact List.getElem?_set_ne (fun hh => hj hh.symm)

/-- C5, witness: on the concrete two-slot tree `⟨[4, 6], 1, some 1⟩`
with `vtEven`, `complicate` retries exactly the recorded slot 1 and
leaves slot 0 alone. -/
theorem claim_C5_witness :
    ArrayTree.complicate vtEven ⟨[4, 6], 1, some 1⟩
      = some ((vtEven.complicate 6).1,
          ⟨[4, 6].set 1 (vtEven.complicate 6).2, 1,
            if (vtEven.complicate 6).1 then some 1 else none⟩)
  ∧ (∀ j, j ≠ 1 →
      ([4, 6].set 1 (vtEven.complicate 6).2)[j]? = [4, 6][j]?) :=
  (claim_C5_array_product vtEven ⟨[4, 6], 1, some 1⟩ (by decide)).2.2.2 1 6
    rfl rfl

/-- Helper: `Fuse::simplify` on the meta axis succeeding, with a
successful fresh inner draw: `FlattenValueTree::simplify` returns true,
installs the fresh tree, remembers the previous one (complication
disallowed) and arms the regeneration credit with `Config.cases`. -/
theorem Flatten.simplify_meta_success (mvt : ValueTreeI σm μ)
    (innerOf : μ → TestRunner → Option σi × TestRunner)
    (ivt : ValueTreeI σi α) (s : Flatten.State σm σi)
    (m' : Fuse.State σm) (v : σi) (r' : TestRunner)
    (hm : Fuse.simplify mvt s.meta = (true, m'))
    (hio : innerOf (mvt.current m'.inner) s.runner = (some v, r')) :
    Flatten.simplify mvt innerOf ivt s
      = (true, ⟨m', Fuse.new v, some (Fuse.disallow_complicate s.current),
          r', r'.cases⟩) := by
  simp only [Flatten.simplify, hm, hio, if_true]

/-- Helper: `FlattenValueTree::simplify` with the meta axis exhausted
falls back to the in-place inner simplification. -/
theorem Flatten.simplify_meta_fail (mvt : ValueTreeI σm μ)
    (innerOf : μ → TestRunner → Option σi × TestRunner)
    (ivt : ValueTreeI σi α) (s : Flatten.State σm σi)
    (m' : Fuse.State σm)
    (hm : Fuse.simplify mvt s.meta = (false, m')) :
    Flatten.simplify mvt innerOf ivt s
      = Flatten.simplifyFallback ivt
          ⟨m', Fuse.disallow_complicate s.current, s.last_complication,
            s.runner, s.complicate_regen_remaining⟩ := by
  simp only [Flatten.simplify, hm, Bool.false_eq_true, if_false]

/-- Helper: a successful meta simplification whose fresh inner draw is
rejected disallows further meta simplification and falls back to the
in-place inner simplification. -/
theorem Flatten.simplify_draw_fail (mvt : ValueTreeI σm μ)
    (innerOf : μ → TestRunner → Option σi × TestRunner)
    (ivt : ValueTreeI σi α) (s : Flatten.State σm σi)
    (m' : Fuse.State σm) (r' : TestRunner)
    (hm : Fuse.simplify mvt s.meta = (true, m'))
    (hio : innerOf (mvt.current m'.inner) s.runner = (none, r')) :
    Flatten.simplify mvt innerOf ivt s
      = Flatten.simplifyFallback ivt
          ⟨Fuse.disallow_simplify m', Fuse.disallow_complicate s.current,
            s.last_complication, r', s.complicate_regen_remaining⟩ := by
  simp only [Flatten.simplify, hm, hio, if_true]

/-- Helper: the fallback zeroes the regeneration credit and simplifies
the inner tree in place, remembering the pre-simplify snapshot on
success. -/
theorem Flatten.simplifyFallback_eq (ivt : ValueTreeI σi α)
    (s : Flatten.State σm σi) :
    Flatten.simplifyFallback ivt s
      = (if (Fuse.simplify ivt s.current).1 then
          (true, ⟨s.meta, (Fuse.simplify ivt s.current).2,
            some (Fuse.disallow_simplify s.current), s.runner, 0⟩)
        else (false, ⟨s.meta, (Fuse.simplify ivt s.current).2,
          s.last_complication, s.runner, 0⟩)) := rfl

/-- C2, counterexample.  The claim says a `simplify()` that succeeds via
the outer (meta) axis consumes one unit of the run-wide
`max_flat_map_regens` budget.  On this concrete tree the outer axis
succeeds (`simplify` returns true), yet the consumed-units counter
`flat_map_regens` stays 0 rather than rising to 1: `simplify` never
calls `flat_map_regen` — it only arms `complicate_regen_remaining`, and
the budget is consumed by later `complicate` regeneration attempts. -/
theorem claim_C2_counterexample :
    (Flatten.simplify vtDown drawOk vtConst
        ⟨Fuse.new 1, Fuse.new 5, none, ⟨0, 1000000, 256, 0⟩, 0⟩).1 = true
  ∧ ¬ ((Flatten.simplify vtDown drawOk vtConst
        ⟨Fuse.new 1, Fuse.new 5, none, ⟨0, 1000000, 256, 0⟩, 0⟩
        ).2.runner.flat_map_regens
      = (0 : Nat) + 1) := by
  constructor
  · rfl
  · decide

/-- C2, amended: `FlattenValueTree::simplify` tries the outer (meta)
axis first; when the meta axis succeeds and the fresh inner draw
succeeds it installs the new inner tree, remembers the previous inner
tree, and arms the complicate-side regeneration credit with
`Config.cases` — leaving the run-wide `max_flat_map_regens` consumption
counter untouched (that budget is consumed only by `complicate`); when
the fresh draw is rejected it disallows further meta simplification and
falls back; when the meta axis is exhausted it falls back to simplifying
the inner tree in place with the regeneration credit zeroed. -/
theorem claim_C2_flatten_simplify (mvt : ValueTreeI σm μ)
    (innerOf : μ → TestRunner → Option σi × TestRunner)
    (ivt : ValueTreeI σi α) (s : Flatten.State σm σi) :
    (∀ m' v r', Fuse.simplify mvt s.meta = (true, m') →
      innerOf (mvt.current m'.inner) s.runner = (some v, r') →
      Flatten.simplify mvt innerOf ivt s
        = (true, ⟨m', Fuse.new v, some (Fuse.disallow_complicate s.current),
            r', r'.cases⟩)
      ∧ (r'.flat_map_regens = s.runner.flat_map_regens →
          (Flatten.simplify mvt innerOf ivt s).2.runner.flat_map_regens
            = s.runner.flat_map_regens))
  ∧ (∀ m', Fuse.simplify mvt s.meta = (false, m') →
      Flatten.simplify mvt innerOf ivt s
        = Flatten.simplifyFallback ivt
            ⟨m', Fuse.disallow_complicate s.current, s.last_complication,
              s.runner, s.complicate_regen_remaining⟩)
  ∧ (∀ m' r', Fuse.simplify mvt s.meta = (true, m') →
      innerOf (mvt.current m'.inner) s.runner = (none, r') →
      Flatten.simplify mvt innerOf ivt s
        = Flatten.simplifyFallback ivt
            ⟨Fuse.disallow_simplify m', Fuse.disallow_complicate s.current,
              s.last_complication, r', s.complicate_regen_remaining⟩)
  ∧ (∀ s₀ : Flatten.State σm σi, Flatten.simplifyFallback ivt s₀
      = (if (Fuse.simplify ivt s₀.current).1 then
          (true, ⟨s₀.meta, (Fuse.simplify ivt s₀.current).2,
            some (Fuse.disallow_simplify s₀.current), s₀.runner, 0⟩)
        else (false, ⟨s₀.meta, (Fuse.simplify ivt s₀.current).2,
          s₀.last_complication, s₀.runner, 0⟩))) := by
  refine ⟨?_, ?_, ?_, ?_⟩
  · intro m' v r' hm hio
    have he := Flatten.simplify_meta_success mvt innerOf ivt s m' v r' hm hio
    refine ⟨he, fun hpres => ?_⟩
    rw [he, hpres]
  · intro m' hm
    exact Flatten.simplify_meta_fail mvt innerOf ivt s m' hm
  · intro m' r' hm hio
    exact Flatten.simplify_draw_fail mvt innerOf ivt s m' r' hm hio
  · intro s₀
    exact Flatten.simplifyFallback_eq ivt s₀

/-- C2, witness: instantiating the meta-success case on the concrete
tree used by the counterexample. -/
theorem claim_C2_witness :
    Flatten.simplify vtDown drawOk vtConst
        ⟨Fuse.new 1, Fuse.new 5, none, ⟨0, 1000000, 256, 0⟩, 0⟩
      = (true, ⟨⟨0, true, true⟩, Fuse.new 0,
          some (Fuse.disallow_complicate (Fuse.new 5)),
          ⟨0, 1000000, 256, 0⟩, 256⟩)
  ∧ ((⟨0, 1000000, 256, 0⟩ : TestRunner).flat_map_regens
      = (⟨0, 1000000, 256, 0⟩ : TestRunner).flat_map_regens →
      (Flatten.simplify vtDown drawOk vtConst
        ⟨Fuse.new 1, Fuse.new 5, none, ⟨0, 1000000, 256, 0⟩, 0⟩
        ).2.runner.flat_map_regens
      = (⟨0, 1000000, 256, 0⟩ : TestRunner).flat_map_regens) :=
  (claim_C2_flatten_simplify vtDown drawOk vtConst
      ⟨Fuse.new 1, Fuse.new 5, none, ⟨0, 1000000, 256, 0⟩, 0⟩).1
    ⟨0, true, true⟩ 0 ⟨0, 1000000, 256, 0⟩ (by decide) rfl

/-- Helper: a refused `Fuse::complicate` leaves the complication latch
shut. -/
theorem Fuse.complicate_false_mc (vt : ValueTreeI σ α) (f f' : Fuse.State σ)
    (h : Fuse.complicate vt f = (false, f')) : f'.may_complicate = false := by
  cases hm : f.may_complicate with
  | false =>
    simp only [Fuse.complicate, hm, Bool.false_eq_true, if_false,
      Prod.mk.injEq] at h
    obtain ⟨-, rfl⟩ := h
    exact hm
  | true =>
    simp only [Fuse.complicate, hm, if_true] at h
    cases hc : (vt.complicate f.inner).1 with
    | true => simp only [hc, if_true] at h; simp at h
    | false =>
      simp only [hc, Bool.false_eq_true, if_false, Prod.mk.injEq] at h
      obtain ⟨-, rfl⟩ := h
      rfl

/-- Helper: a refused `Fuse::simplify` does not move the complication
latch. -/
theorem Fuse.simplify_false_mc (vt : ValueTreeI σ α) (f f' : Fuse.State σ)
    (h : Fuse.simplify vt f = (false, f')) :
    f'.may_complicate = f.may_complicate := by
  cases hm : f.may_simplify with
  | false =>
    simp only [Fuse.simplify, hm, Bool.false_eq_true, if_false,
      Prod.mk.injEq] at h
    obtain ⟨-, rfl⟩ := h
    rfl
  | true =>
    simp only [Fuse.simplify, hm, if_true] at h
    cases hc : (vt.simplify f.inner).1 with
    | true => simp only [hc, if_true] at h; simp at h
    | false =>
      simp only [hc, Bool.false_eq_true, if_false, Prod.mk.injEq] at h
      obtain ⟨-, rfl⟩ := h
      rfl

/-- Helper: the last two stages of `FlattenValueTree::complicate`
return false only with the complication latch of the inner tree shut
and `last_complication` gone, all other fields untouched. -/
theorem Flatten.complicateStage3_false (ivt : ValueTreeI σi α)
    (s s' : Flatten.State σm σi)
    (heq : Flatten.complicateStage3 ivt s = (false, s')) :
    s'.complicate_regen_remaining = s.complicate_regen_remaining
    ∧ s'.meta = s.meta ∧ s'.runner = s.runner
    ∧ s'.current.may_complicate = false
    ∧ s'.last_complication = none := by
  cases hc : (Fuse.complicate ivt s.current).1 with
  | true => simp only [Flatten.complicateStage3, hc, if_true] at heq; simp at heq
  | false =>
    cases hl : s.last_complication with
    | some v =>
      simp only [Flatten.complicateStage3, hc, Bool.false_eq_true, if_false,
        hl] at heq
      simp at heq
    | none =>
      simp only [Flatten.complicateStage3, hc, Bool.false_eq_true, if_false,
        hl, Prod.mk.injEq] at heq
      obtain ⟨-, rfl⟩ := heq
      refine ⟨rfl, rfl, rfl, ?_, rfl⟩
      exact Fuse.complicate_false_mc ivt _ _ (by rw [← hc])

/-- Helper: the meta stage of `FlattenValueTree::complicate` returns
false (when inner draws cannot fail) only with both complication
latches shut, the regeneration credit untouched, and no
`last_complication` left. -/
theorem Flatten.complicateStage2_false (mvt : ValueTreeI σm μ)
    (innerOf : μ → TestRunner → Option σi × TestRunner)
    (ivt : ValueTreeI σi α)
    (htotal : ∀ m r, (innerOf m r).1.isSome = true)
    (s s' : Flatten.State σm σi)
    (heq : Flatten.complicateStage2 mvt innerOf ivt s = (false, s')) :
    s'.complicate_regen_remaining = s.complicate_regen_remaining
    ∧ s'.meta.may_complicate = false
    ∧ s'.current.may_complicate = false
    ∧ s'.last_complication = none := by
  cases hm : (Fuse.complicate mvt s.meta).1 with
  | true =>
    rcases hio : innerOf (mvt.current (Fuse.complicate mvt s.meta).2.inner)
        s.runner with ⟨o, r'⟩
    cases o with
    | some v =>
      simp only [Flatten.complicateStage2, hm, if_true, hio] at heq
      simp at heq
    | none =>
      have hT := htotal (mvt.current (Fuse.complicate mvt s.meta).2.inner)
        s.runner
      rw [hio] at hT
      simp at hT
  | false =>
    have hstage : Flatten.complicateStage2 mvt innerOf ivt s
        = Flatten.complicateStage3 ivt
            ⟨(Fuse.complicate mvt s.meta).2, s.current, s.last_complication,
              s.runner, s.complicate_regen_remaining⟩ := by
      simp only [Flatten.complicateStage2, hm, Bool.false_eq_true, if_false]
    rw [hstage] at heq
    obtain ⟨h1, h2, -, h4, h5⟩ := Flatten.complicateStage3_false ivt _ s' heq
    refine ⟨h1, ?_, h4, h5⟩
    rw [h2]
    exact Fuse.complicate_false_mc mvt _ _ (by rw [← hm])

/-- Helper: when inner draws cannot fail, a false return from
`FlattenValueTree::complicate` leaves a dead state. -/
theorem Flatten.complicate_false_dead (mvt : ValueTreeI σm μ)
    (innerOf : μ → TestRunner → Option σi × TestRunner)
    (ivt : ValueTreeI σi α)
    (htotal : ∀ m r, (innerOf m r).1.isSome = true)
    (s s' : Flatten.State σm σi)
    (heq : Flatten.complicate mvt innerOf ivt s = (false, s')) :
    Flatten.dead s' = true := by
  by_cases hrem : s.complicate_regen_remaining > 0
  · rcases hg : s.runner.flat_map_regen with ⟨gb, r2⟩
    cases gb with
    | true =>
      rcases hio : innerOf (mvt.current s.meta.inner) r2 with ⟨o, r3⟩
      cases o with
      | some v =>
        simp only [Flatten.complicate, if_pos hrem, hg, if_true, hio] at heq
        simp at heq
      | none =>
        have hT := htotal (mvt.current s.meta.inner) r2
        rw [hio] at hT
        simp at hT
    | false =>
      simp only [Flatten.complicate, if_pos hrem, hg, Bool.false_eq_true,
        if_false] at heq
      obtain ⟨h1, h2, h3, h4⟩ :=
        Flatten.complicateStage2_false mvt innerOf ivt htotal _ s' heq
      simp [Flatten.dead, h1, h2, h3, h4]
  · simp only [Flatten.complicate, if_neg hrem] at heq
    obtain ⟨h1, h2, h3, h4⟩ :=
      Flatten.complicateStage2_false mvt innerOf ivt htotal s s' heq
    simp only [Nat.not_lt, Nat.le_zero, gt_iff_lt] at hrem
    simp [Flatten.dead, h1, h2, h3, h4, hrem]

/-- Helper: from a dead state, `FlattenValueTree::complicate` returns
false and the state stays dead. -/
theorem Flatten.dead_complicate (mvt : ValueTreeI σm μ)
    (innerOf : μ → TestRunner → Option σi × TestRunner)
    (ivt : ValueTreeI σi α) (s : Flatten.State σm σi)
    (hd : Flatten.dead s = true) :
    (Flatten.complicate mvt innerOf ivt s).1 = false
    ∧ Flatten.dead (Flatten.complicate mvt innerOf ivt s).2 = true := by
  simp only [Flatten.dead, Bool.and_eq_true, decide_eq_true_eq,
    Bool.not_eq_true', Option.isNone_iff_eq_none] at hd
  obtain ⟨⟨⟨h1, h2⟩, h3⟩, h4⟩ := hd
  constructor
  · simp [Flatten.complicate, h1, Flatten.complicateStage2, Fuse.complicate,
      h2, Flatten.complicateStage3, h3, h4]
  · simp [Flatten.complicate, h1, Flatten.complicateStage2, Fuse.complicate,
      h2, Flatten.complicateStage3, h3, h4, Flatten.dead]

/-- Helper: from a dead state (inner draws never failing), a refused
`FlattenValueTree::simplify` leaves the state dead. -/
theorem Flatten.dead_simplify (mvt : ValueTreeI σm μ)
    (innerOf : μ → TestRunner → Option σi × TestRunner)
    (ivt : ValueTreeI σi α)
    (htotal : ∀ m r, (innerOf m r).1.isSome = true)
    (s : Flatten.State σm σi) (hd : Flatten.dead s = true)
    (hfail : (Flatten.simplify mvt innerOf ivt s).1 = false) :
    Flatten.dead (Flatten.simplify mvt innerOf ivt s).2 = true := by
  simp only [Flatten.dead, Bool.and_eq_true, decide_eq_true_eq,
    Bool.not_eq_true', Option.isNone_iff_eq_none] at hd
  obtain ⟨⟨⟨h1, h2⟩, h3⟩, h4⟩ := hd
  rcases hm : Fuse.simplify mvt s.meta with ⟨mb, m'⟩
  cases mb with
  | true =>
    rcases hio : innerOf (mvt.current m'.inner) s.runner with ⟨o, r'⟩
    cases o with
    | some v =>
      rw [Flatten.simplify_meta_success mvt innerOf ivt s m' v r' hm hio]
        at hfail
      simp at hfail
    | none =>
      have hT := htotal (mvt.current m'.inner) s.runner
      rw [hio] at hT
      simp at hT
  | false =>
    have hmc : m'.may_complicate = false := by
      rw [Fuse.simplify_false_mc mvt s.meta m' hm]
      exact h2
    rw [Flatten.simplify_meta_fail mvt innerOf ivt s m' hm] at hfail ⊢
    rw [Flatten.simplifyFallback_eq] at hfail ⊢
    cases hc : (Fuse.simplify ivt
        (Fuse.disallow_complicate s.current)).1 with
    | true =>
      simp only [hc, if_true] at hfail
      simp at hfail
    | false =>
      have hcc : (Fuse.simplify ivt
          (Fuse.disallow_complicate s.current)).2.may_complicate = false := by
        rw [Fuse.simplify_false_mc ivt (Fuse.disallow_complicate s.current) _
          (by rw [← hc])]
        rfl
      simp only [hc, Bool.false_eq_true, if_false]
      simp [Flatten.dead, hmc, hcc, h4]

/-- Helper: a false return from `ArrayValueTree::complicate` clears the
recorded slot. -/
theorem ArrayTree.complicate_false_clears (vt : ValueTreeI σ α)
    (s s' : ArrayTree.State σ)
    (heq : ArrayTree.complicate vt s = some (false, s')) :
    s'.last_shrinker = none := by
  cases hsk : s.last_shrinker with
  | none =>
    simp only [ArrayTree.complicate, hsk, Option.some.injEq,
      Prod.mk.injEq] at heq
    obtain ⟨-, rfl⟩ := heq
    exact hsk
  | some k =>
    cases hx : s.tree[k]? with
    | none =>
      simp only [ArrayTree.complicate, hsk, hx] at heq
      cases heq
    | some x =>
      cases hc : (vt.complicate x).1 with
      | true =>
        simp only [ArrayTree.complicate, hsk, hx, hc, if_true] at heq
        simp at heq
      | false =>
        simp only [ArrayTree.complicate, hsk, hx, hc, Bool.false_eq_true,
          if_false, Option.some.injEq, Prod.mk.injEq] at heq
        obtain ⟨-, rfl⟩ := heq
        rfl

/-- Helper: with no recorded slot, `ArrayValueTree::complicate` refuses
and touches nothing. -/
theorem ArrayTree.complicate_none (vt : ValueTreeI σ α)
    (s : ArrayTree.State σ) (hnone : s.last_shrinker = none) :
    ArrayTree.complicate vt s = some (false, s) := by
  unfold ArrayTree.complicate
  rw [hnone]

/-- Helper: a refused `ArrayValueTree::simplify` preserves the recorded
slot. -/
theorem ArrayTree.simplify_false_keeps (vt : ValueTreeI σ α)
    (s s' : ArrayTree.State σ)
    (heq : ArrayTree.simplify vt s = (false, s')) :
    s'.last_shrinker = s.last_shrinker := by
  rcases hg : ArrayTree.simplifyGo vt (s.tree.length - s.shrinker) s.tree
      s.shrinker with ⟨b0, t0, k0⟩
  unfold ArrayTree.simplify at heq
  rw [hg] at heq
  cases b0 with
  | true => rw [if_pos rfl] at heq; cases heq
  | false =>
    rw [if_neg (fun hh => nomatch hh)] at heq
    simp only [Prod.mk.injEq] at heq
    obtain ⟨-, rfl⟩ := heq
    rfl

/-- C3, counterexample.  The claim says every core-combinator tree keeps
returning false from `complicate()` once it has returned false, until a
`simplify()` succeeds.  This concrete `FlattenValueTree` — built by the
combinator's own `new` (meta value 1, inner strategy `drawFlaky` whose
draws are rejected while the RNG counter is 2 or 3), one successful
`simplify` and one successful `complicate` — returns false from
`complicate()` (a regeneration draw was rejected) and then returns true
from the very next `complicate()` (the next regeneration draw succeeds),
with no `simplify` in between. -/
theorem claim_C3_counterexample :
    Flatten.new vtDown drawFlaky ⟨0, 10, 3, 0⟩ 1
      = (some ⟨⟨1, true, true⟩, ⟨1, true, true⟩, none, ⟨0, 10, 3, 1⟩, 0⟩,
          ⟨0, 10, 3, 1⟩)
  ∧ Flatten.simplify vtDown drawFlaky vtConst
      ⟨⟨1, true, true⟩, ⟨1, true, true⟩, none, ⟨0, 10, 3, 1⟩, 0⟩
      = (true, ⟨⟨0, true, true⟩, ⟨0, true, true⟩, some ⟨1, true, false⟩,
          ⟨0, 10, 3, 2⟩, 3⟩)
  ∧ Flatten.complicate vtDown drawFlaky vtConst
      ⟨⟨0, true, true⟩, ⟨0, true, true⟩, some ⟨1, true, false⟩,
        ⟨0, 10, 3, 2⟩, 3⟩
      = (true, ⟨⟨0, true, false⟩, ⟨1, true, false⟩, none, ⟨1, 10, 3, 3⟩, 2⟩)
  ∧ Flatten.complicate vtDown drawFlaky vtConst
      ⟨⟨0, true, false⟩, ⟨1, true, false⟩, none, ⟨1, 10, 3, 3⟩, 2⟩
      = (false, ⟨⟨0, true, false⟩, ⟨1, true, false⟩, none, ⟨2, 10, 3, 4⟩, 1⟩)
  ∧ (Flatten.complicate vtDown drawFlaky vtConst
      ⟨⟨0, true, false⟩, ⟨1, true, false⟩, none, ⟨2, 10, 3, 4⟩, 1⟩).1
      = true := by
  refine ⟨rfl, rfl, rfl, rfl, rfl⟩

/-- C3, amended: terminal-until-reset holds unconditionally for
`ArrayValueTree` (a false `complicate` clears `last_shrinker`; with it
cleared, `complicate` keeps returning false and touching nothing, and a
failed `simplify` preserves the cleared record), and it holds for
`FlattenValueTree` provided the inner strategy's `new_tree` never fails
(a false `complicate` leaves a dead state — no regeneration credit, both
complication latches shut, no remembered tree; dead states keep refusing
`complicate` and stay dead through failed `simplify` calls).  The
counterexample shows the Flatten half genuinely needs the proviso. -/
theorem claim_C3_terminal_until_reset (vt : ValueTreeI σ α)
    (sA : ArrayTree.State σ) (mvt : ValueTreeI σm μ)
    (innerOf : μ → TestRunner → Option σi × TestRunner)
    (ivt : ValueTreeI σi β) (sF : Flatten.State σm σi)
    (htotal : ∀ m r, (innerOf m r).1.isSome = true) :
    (∀ s', ArrayTree.complicate vt sA = some (false, s') →
      s'.last_shrinker = none)
  ∧ (sA.last_shrinker = none → ArrayTree.complicate vt sA = some (false, sA))
  ∧ (∀ s', ArrayTree.simplify vt sA = (false, s') →
      s'.last_shrinker = sA.last_shrinker)
  ∧ (∀ s', Flatten.complicate mvt innerOf ivt sF = (false, s') →
      Flatten.dead s' = true)
  ∧ (Flatten.dead sF = true →
      (Flatten.complicate mvt innerOf ivt sF).1 = false
      ∧ Flatten.dead (Flatten.complicate mvt innerOf ivt sF).2 = true)
  ∧ (Flatten.dead sF = true →
      (Flatten.simplify mvt innerOf ivt sF).1 = false →
      Flatten.dead (Flatten.simplify mvt innerOf ivt sF).2 = true) :=
  ⟨fun s' heq => ArrayTree.complicate_false_clears vt sA s' heq,
   fun hnone => ArrayTree.complicate_none vt sA hnone,
   fun s' heq => ArrayTree.simplify_false_keeps vt sA s' heq,
   fun s' heq => Flatten.complicate_false_dead mvt innerOf ivt htotal sF s' heq,
   fun hd => Flatten.dead_complicate mvt innerOf ivt sF hd,
   fun hd hfail => Flatten.dead_simplify mvt innerOf ivt htotal sF hd hfail⟩

/-- C3, witness: with the never-failing draw `drawOk`, a dead concrete
`FlattenValueTree` state keeps refusing `complicate` and stays dead, and
the concrete array tree with no recorded slot refuses `complicate`. -/
theorem claim_C3_witness :
    (ArrayTree.complicate vtConst ⟨[3, 4], 2, none⟩
      = some (false, ⟨[3, 4], 2, none⟩))
  ∧ ((Flatten.complicate vtDown drawOk vtConst
        ⟨⟨0, true, false⟩, ⟨1, true, false⟩, none, ⟨2, 10, 3, 4⟩, 0⟩).1
        = false
    ∧ Flatten.dead (Flatten.complicate vtDown drawOk vtConst
        ⟨⟨0, true, false⟩, ⟨1, true, false⟩, none, ⟨2, 10, 3, 4⟩, 0⟩).2
        = true) :=
  ⟨(claim_C3_terminal_until_reset vtConst ⟨[3, 4], 2, none⟩ vtDown drawOk
      vtConst ⟨⟨0, true, false⟩, ⟨1, true, false⟩, none, ⟨2, 10, 3, 4⟩, 0⟩
      (fun _ _ => rfl)).2.1 rfl,
   (claim_C3_terminal_until_reset vtConst ⟨[3, 4], 2, none⟩ vtDown drawOk
      vtConst ⟨⟨0, true, false⟩, ⟨1, true, false⟩, none, ⟨2, 10, 3, 4⟩, 0⟩
      (fun _ _ => rfl)).2.2.2.2.1 (by decide)⟩

/-- Helper: the `FORK` branch of the environment handler. -/
theorem applyEnvVar_eq_FORK (c : Config) (val : Option (List Char)) :
    applyEnvVar c FORK val
      = ({ c with fork := (parse_or_warn parseBool val c.fork).1 },
         (parse_or_warn parseBool val c.fork).2) := by
  unfold applyEnvVar
  rw [if_pos rfl]

/-- Helper: the `TIMEOUT` branch of the environment handler. -/
theorem applyEnvVar_eq_TIMEOUT (c : Config) (val : Option (List Char)) :
    applyEnvVar c TIMEOUT val
      = ({ c with timeout := (parse_or_warn parseU32 val c.timeout).1 },
         (parse_or_warn parseU32 val c.timeout).2) := by
  unfold applyEnvVar
  rw [if_neg (by decide), if_pos rfl]

/-- Helper: the `CASES` branch of the environment handler. -/
theorem applyEnvVar_eq_CASES (c : Config) (val : Option (List Char)) :
    applyEnvVar c CASES val
      = ({ c with cases := (parse_or_warn parseU32 val c.cases).1 },
         (parse_or_warn parseU32 val c.cases).2) := by
  unfold applyEnvVar
  rw [if_neg (by decide), if_neg (by decide), if_pos rfl]

/-- Helper: the `MAX_LOCAL_REJECTS` branch of the environment handler. -/
theorem applyEnvVar_eq_MAX_LOCAL_REJECTS (c : Config) (val : Option (List Char)) :
    applyEnvVar c MAX_LOCAL_REJECTS val
      = ({ c with max_local_rejects := (parse_or_warn parseU32 val c.max_local_rejects).1 },
         (parse_or_warn parseU32 val c.max_local_rejects).2) := by
  unfold applyEnvVar
  rw [if_neg (by decide), if_neg (by decide), if_neg (by decide), if_pos rfl]

/-- Helper: the `MAX_GLOBAL_REJECTS` branch of the environment handler. -/
theorem applyEnvVar_eq_MAX_GLOBAL_REJECTS (c : Config) (val : Option (List Char)) :
    applyEnvVar c MAX_GLOBAL_REJECTS val
      = ({ c with max_global_rejects := (parse_or_warn parseU32 val c.max_global_rejects).1 },
         (parse_or_warn parseU32 val c.max_global_rejects).2) := by
  unfold applyEnvVar
  rw [if_neg (by decide), if_neg (by decide), if_neg (by decide), if_neg (by decide), if_pos rfl]

/-- Helper: the `MAX_FLAT_MAP_REGENS` branch of the environment handler. -/
theorem applyEnvVar_eq_MAX_FLAT_MAP_REGENS (c : Config) (val : Option (List Char)) :
    applyEnvVar c MAX_FLAT_MAP_REGENS val
      = ({ c with max_flat_map_regens := (parse_or_warn parseU32 val c.max_flat_map_regens).1 },
         (parse_or_warn parseU32 val c.max_flat_map_regens).2) := by
  unfold applyEnvVar
  rw [if_neg (by decide), if_neg (by decide), if_neg (by decide), if_neg (by decide), if_neg (by decide), if_pos rfl]

/-- Helper: the `MAX_SHRINK_TIME` branch of the environment handler. -/
theorem applyEnvVar_eq_MAX_SHRINK_TIME (c : Config) (val : Option (List Char)) :
    applyEnvVar c MAX_SHRINK_TIME val
      = ({ c with max_shrink_time := (parse_or_warn parseU32 val c.max_shrink_time).1 },
         (parse_or_warn parseU32 val c.max_shrink_time).2) := by
  unfold applyEnvVar
  rw [if_neg (by decide), if_neg (by decide), if_neg (by decide), if_neg (by decide), if_neg (by decide), if_neg (by decide), if_pos rfl]

/-- Helper: the `MAX_SHRINK_ITERS` branch of the environment handler. -/
theorem applyEnvVar_eq_MAX_SHRINK_ITERS (c : Config) (val : Option (List Char)) :
    applyEnvVar c MAX_SHRINK_ITERS val
      = ({ c with max_shrink_iters := (parse_or_warn parseU32 val c.max_shrink_iters).1 },
         (parse_or_warn parseU32 val c.max_shrink_iters).2) := by
  unfold applyEnvVar
  rw [if_neg (by decide), if_neg (by decide), if_neg (by decide), if_neg (by decide), if_neg (by decide), if_neg (by decide), if_neg (by decide), if_pos rfl]

/-- Helper: the `MAX_DEFAULT_SIZE_RANGE` branch of the environment handler. -/
theorem applyEnvVar_eq_MAX_DEFAULT_SIZE_RANGE (c : Config) (val : Option (List Char)) :
    applyEnvVar c MAX_DEFAULT_SIZE_RANGE val
      = ({ c with max_default_size_range := (parse_or_warn parseUsize val c.max_default_size_range).1 },
         (parse_or_warn parseUsize val c.max_default_size_range).2) := by
  unfold applyEnvVar
  rw [if_neg (by decide), if_neg (by decide), if_neg (by decide), if_neg (by decide), if_neg (by decide), if_neg (by decide), if_neg (by decide), if_neg (by decide), if_pos rfl]

/-- Helper: the `VERBOSE` branch of the environment handler. -/
theorem applyEnvVar_eq_VERBOSE (c : Config) (val : Option (List Char)) :
    applyEnvVar c VERBOSE val
      = ({ c with verbose := (parse_or_warn parseU32 val c.verbose).1 },
         (parse_or_warn parseU32 val c.verbose).2) := by
  unfold applyEnvVar
  rw [if_neg (by decide), if_neg (by decide), if_neg (by decide), if_neg (by decide), if_neg (by decide), if_neg (by decide), if_neg (by decide), if_neg (by decide), if_neg (by decide), if_pos rfl]

/-- Helper: the `RNG_ALGORITHM` branch of the environment handler. -/
theorem applyEnvVar_eq_RNG_ALGORITHM (c : Config) (val : Option (List Char)) :
    applyEnvVar c RNG_ALGORITHM val
      = ({ c with rng_algorithm := (parse_or_warn RngAlgorithm.from_str val c.rng_algorithm).1 },
         (parse_or_warn RngAlgorithm.from_str val c.rng_algorithm).2) := by
  unfold applyEnvVar
  rw [if_neg (by decide), if_neg (by decide), if_neg (by decide), if_neg (by decide), if_neg (by decide), if_neg (by decide), if_neg (by decide), if_neg (by decide), if_neg (by decide), if_neg (by decide), if_pos rfl]

/-- Helper: the `RNG_SEED` branch of the environment handler: stash,
parse-or-warn, then validate a hex seed's byte length against the
configured algorithm, restoring the stashed seed (with a warning) on
mismatch. -/
theorem applyEnvVar_eq_RNG_SEED (c : Config) (val : Option (List Char)) :
    applyEnvVar c RNG_SEED val
      = (match (parse_or_warn rngSeedParse val c.rng_seed).1 with
         | RngSeed.FullHexEncodedSeed seed =>
           match c.rng_algorithm with
           | RngAlgorithm.XorShift =>
             if seed.length ≠ 16 then
               (c, (parse_or_warn rngSeedParse val c.rng_seed).2 + 1)
             else
               ({ c with
                    rng_seed := (parse_or_warn rngSeedParse val c.rng_seed).1 },
                (parse_or_warn rngSeedParse val c.rng_seed).2)
           | RngAlgorithm.ChaCha =>
             if seed.length ≠ 32 then
               (c, (parse_or_warn rngSeedParse val c.rng_seed).2 + 1)
             else
               ({ c with
                    rng_seed := (parse_or_warn rngSeedParse val c.rng_seed).1 },
                (parse_or_warn rngSeedParse val c.rng_seed).2)
         | _ =>
           ({ c with rng_seed := (parse_or_warn rngSeedParse val c.rng_seed).1 },
            (parse_or_warn rngSeedParse val c.rng_seed).2)) := by
  unfold applyEnvVar
  rw [if_neg (by decide), if_neg (by decide), if_neg (by decide),
    if_neg (by decide), if_neg (by decide), if_neg (by decide),
    if_neg (by decide), if_neg (by decide), if_neg (by decide),
    if_neg (by decide), if_neg (by decide), if_pos rfl]

/-- Helper: a `PROPTEST_RNG_SEED` value that fails to parse leaves the
whole `Config` unchanged and emits at least one warning (exactly one,
plus a second one when the kept prior seed is itself a hex seed whose
length fails the validation against the configured algorithm). -/
theorem contextualize_RNG_SEED_parse_fail (c : Config) (v : List Char)
    (hp : rngSeedParse v = none) :
    (contextualize_config [(RNG_SEED, some v)] c).1 = c
    ∧ 1 ≤ (contextualize_config [(RNG_SEED, some v)] c).2 := by
  have he : contextualize_config [(RNG_SEED, some v)] c
      = ((applyEnvVar c RNG_SEED (some v)).1,
         0 + (applyEnvVar c RNG_SEED (some v)).2) := rfl
  rw [he, applyEnvVar_eq_RNG_SEED]
  simp only [parse_or_warn, hp]
  cases hseed : c.rng_seed with
  | Random =>
    dsimp only
    refine ⟨?_, by omega⟩
    rw [← hseed]
  | Fixed n =>
    dsimp only
    refine ⟨?_, by omega⟩
    rw [← hseed]
  | FullHexEncodedSeed bs =>
    cases halg : c.rng_algorithm with
    | XorShift =>
      dsimp only
      by_cases hlen : bs.length ≠ 16
      · rw [if_pos hlen]
        exact ⟨rfl, by omega⟩
      · rw [if_neg hlen]
        dsimp only
        refine ⟨?_, by omega⟩
        rw [← hseed, ← halg]
    | ChaCha =>
      dsimp only
      by_cases hlen : bs.length ≠ 32
      · rw [if_pos hlen]
        exact ⟨rfl, by omega⟩
      · rw [if_neg hlen]
        dsimp only
        refine ⟨?_, by omega⟩
        rw [← hseed, ← halg]

/-- C8: for each recognized parsed `PROPTEST_*` configuration variable
(the `parse_or_warn` family plus the stash-validate-restore `RNG_SEED`),
`contextualize_config` with a value that fails to parse — or, for
`PROPTEST_RNG_SEED`, a hex seed whose byte length does not match the
configured RNG algorithm — leaves the whole `Config` unchanged and emits
a warning, while a well-formed value replaces exactly the
corresponding field with no warning; a non-unicode value (embedded as
`none`, shown for `CASES`) likewise warns and keeps the prior value. -/
theorem claim_C8_env_overrides (c : Config) (v : List Char) :
  ((parseBool v = none →
      contextualize_config [(FORK, some v)] c = (c, 1))
    ∧ ∀ x, parseBool v = some x →
      contextualize_config [(FORK, some v)] c
        = ({ c with fork := x }, 0))
  ∧
  ((parseU32 v = none →
      contextualize_config [(TIMEOUT, some v)] c = (c, 1))
    ∧ ∀ x, parseU32 v = some x →
      contextualize_config [(TIMEOUT, some v)] c
        = ({ c with timeout := x }, 0))
  ∧
  ((parseU32 v = none →
      contextualize_config [(CASES, some v)] c = (c, 1))
    ∧ ∀ x, parseU32 v = some x →
      contextualize_config [(CASES, some v)] c
        = ({ c with cases := x }, 0))
  ∧
  ((parseU32 v = none →
      contextualize_config [(MAX_LOCAL_REJECTS, some v)] c = (c, 1))
    ∧ ∀ x, parseU32 v = some x →
      contextualize_config [(MAX_LOCAL_REJECTS, some v)] c
        = ({ c with max_local_rejects := x }, 0))
  ∧
  ((parseU32 v = none →
      contextualize_config [(MAX_GLOBAL_REJECTS, some v)] c = (c, 1))
    ∧ ∀ x, parseU32 v = some x →
      contextualize_config [(MAX_GLOBAL_REJECTS, some v)] c
        = ({ c with max_global_rejects := x }, 0))
  ∧
  ((parseU32 v = none →
      contextualize_config [(MAX_FLAT_MAP_REGENS, some v)] c = (c, 1))
    ∧ ∀ x, parseU32 v = some x →
      contextualize_config [(MAX_FLAT_MAP_REGENS, some v)] c
        = ({ c with max_flat_map_regens := x }, 0))
  ∧
  ((parseU32 v = none →
      contextualize_config [(MAX_SHRINK_TIME, some v)] c = (c, 1))
    ∧ ∀ x, parseU32 v = some x →
      contextualize_config [(MAX_SHRINK_TIME, some v)] c
        = ({ c with max_shrink_time := x }, 0))
  ∧
  ((parseU32 v = none →
      contextualize_config [(MAX_SHRINK_ITERS, some v)] c = (c, 1))
    ∧ ∀ x, parseU32 v = some x →
      contextualize_config [(MAX_SHRINK_ITERS, some v)] c
        = ({ c with max_shrink_iters := x }, 0))
  ∧
  ((parseUsize v = none →
      contextualize_config [(MAX_DEFAULT_SIZE_RANGE, some v)] c = (c, 1))
    ∧ ∀ x, parseUsize v = some x →
      contextualize_config [(MAX_DEFAULT_SIZE_RANGE, some v)] c
        = ({ c with max_default_size_range := x }, 0))
  ∧
  ((parseU32 v = none →
      contextualize_config [(VERBOSE, some v)] c = (c, 1))
    ∧ ∀ x, parseU32 v = some x →
      contextualize_config [(VERBOSE, some v)] c
        = ({ c with verbose := x }, 0))
  ∧
  ((RngAlgorithm.from_str v = none →
      contextualize_config [(RNG_ALGORITHM, some v)] c = (c, 1))
    ∧ ∀ x, RngAlgorithm.from_str v = some x →
      contextualize_config [(RNG_ALGORITHM, some v)] c
        = ({ c with rng_algorithm := x }, 0))
  ∧
  ((rngSeedParse v = none →
      (contextualize_config [(RNG_SEED, some v)] c).1 = c
      ∧ 1 ≤ (contextualize_config [(RNG_SEED, some v)] c).2)
    ∧ (∀ n, rngSeedParse v = some (RngSeed.Fixed n) →
      contextualize_config [(RNG_SEED, some v)] c
        = ({ c with rng_seed := RngSeed.Fixed n }, 0))
    ∧ (∀ bs, rngSeedParse v = some (RngSeed.FullHexEncodedSeed bs) →
      (c.rng_algorithm = RngAlgorithm.XorShift →
        (bs.length ≠ 16 →
          contextualize_config [(RNG_SEED, some v)] c = (c, 1))
        ∧ (bs.length = 16 →
          contextualize_config [(RNG_SEED, some v)] c
            = ({ c with rng_seed := RngSeed.FullHexEncodedSeed bs }, 0)))
      ∧ (c.rng_algorithm = RngAlgorithm.ChaCha →
        (bs.length ≠ 32 →
          contextualize_config [(RNG_SEED, some v)] c = (c, 1))
        ∧ (bs.length = 32 →
          contextualize_config [(RNG_SEED, some v)] c
            = ({ c with rng_seed := RngSeed.FullHexEncodedSeed bs }, 0)))))
  ∧
  (contextualize_config [(CASES, none)] c = (c, 1)) := by
  refine ⟨?_, ?_, ?_, ?_, ?_, ?_, ?_, ?_, ?_, ?_, ?_, ?_, ?_⟩
  · constructor
    · intro hp
      simp only [contextualize_config, List.foldl, applyEnvVar_eq_FORK,
        parse_or_warn, hp]
    · intro x hp
      simp only [contextualize_config, List.foldl, applyEnvVar_eq_FORK,
        parse_or_warn, hp]
  · constructor
    · intro hp
      simp only [contextualize_config, List.foldl, applyEnvVar_eq_TIMEOUT,
        parse_or_warn, hp]
    · intro x hp
      simp only [contextualize_config, List.foldl, applyEnvVar_eq_TIMEOUT,
        parse_or_warn, hp]
  · constructor
    · intro hp
      simp only [contextualize_config, List.foldl, applyEnvVar_eq_CASES,
        parse_or_warn, hp]
    · intro x hp
      simp only [contextualize_config, List.foldl, applyEnvVar_eq_CASES,
        parse_or_warn, hp]
  · constructor
    · intro hp
      simp only [contextualize_config, List.foldl, applyEnvVar_eq_MAX_LOCAL_REJECTS,
        parse_or_warn, hp]
    · intro x hp
      simp only [contextualize_config, List.foldl, applyEnvVar_eq_MAX_LOCAL_REJECTS,
        parse_or_warn, hp]
  · constructor
    · intro hp
      simp only [contextualize_config, List.foldl, applyEnvVar_eq_MAX_GLOBAL_REJECTS,
        parse_or_warn, hp]
    · intro x hp
      simp only [contextualize_config, List.foldl, applyEnvVar_eq_MAX_GLOBAL_REJECTS,
        parse_or_warn, hp]
  · constructor
    · intro hp
      simp only [contextualize_config, List.foldl, applyEnvVar_eq_MAX_FLAT_MAP_REGENS,
        parse_or_warn, hp]
    · intro x hp
      simp only [contextualize_config, List.foldl, applyEnvVar_eq_MAX_FLAT_MAP_REGENS,
        parse_or_warn, hp]
  · constructor
    · intro hp
      simp only [contextualize_config, List.foldl, applyEnvVar_eq_MAX_SHRINK_TIME,
        parse_or_warn, hp]
    · intro x hp
      simp only [contextualize_config, List.foldl, applyEnvVar_eq_MAX_SHRINK_TIME,
        parse_or_warn, hp]
  · constructor
    · intro hp
      simp only [contextualize_config, List.foldl, applyEnvVar_eq_MAX_SHRINK_ITERS,
        parse_or_warn, hp]
    · intro x hp
      simp only [contextualize_config, List.foldl, applyEnvVar_eq_MAX_SHRINK_ITERS,
        parse_or_warn, hp]
  · constructor
    · intro hp
      simp only [contextualize_config, List.foldl, applyEnvVar_eq_MAX_DEFAULT_SIZE_RANGE,
        parse_or_warn, hp]
    · intro x hp
      simp only [contextualize_config, List.foldl, applyEnvVar_eq_MAX_DEFAULT_SIZE_RANGE,
        parse_or_warn, hp]
  · constructor
    · intro hp
      simp only [contextualize_config, List.foldl, applyEnvVar_eq_VERBOSE,
        parse_or_warn, hp]
    · intro x hp
      simp only [contextualize_config, List.foldl, applyEnvVar_eq_VERBOSE,
        parse_or_warn, hp]
  · constructor
    · intro hp
      simp only [contextualize_config, List.foldl, applyEnvVar_eq_RNG_ALGORITHM,
        parse_or_warn, hp]
    · intro x hp
      simp only [contextualize_config, List.foldl, applyEnvVar_eq_RNG_ALGORITHM,
        parse_or_warn, hp]
  · refine ⟨?_, ?_, ?_⟩
    · intro hp
      exact contextualize_RNG_SEED_parse_fail c v hp
    · intro n hp
      simp only [contextualize_config, List.foldl, applyEnvVar_eq_RNG_SEED,
        parse_or_warn, hp]
    · intro bs hp
      constructor
      · intro halg
        constructor
        · intro hlen
          simp only [contextualize_config, List.foldl, applyEnvVar_eq_RNG_SEED,
            parse_or_warn, hp, halg, if_pos hlen]
        · intro hlen
          simp only [contextualize_config, List.foldl, applyEnvVar_eq_RNG_SEED,
            parse_or_warn, hp, halg, hlen]
          simp
      · intro halg
        constructor
        · intro hlen
          simp only [contextualize_config, List.foldl, applyEnvVar_eq_RNG_SEED,
            parse_or_warn, hp, halg, if_pos hlen]
        · intro hlen
          simp only [contextualize_config, List.foldl, applyEnvVar_eq_RNG_SEED,
            parse_or_warn, hp, halg, hlen]
          simp
  · simp only [contextualize_config, List.foldl, applyEnvVar_eq_CASES,
      parse_or_warn]

/-- C8, witness: `PROPTEST_CASES=abc` fails to parse and leaves the
default configuration unchanged with one warning; `PROPTEST_CASES=42`
replaces the `cases` field with no warning. -/
theorem claim_C8_witness :
    contextualize_config [(CASES, some ['a', 'b', 'c'])]
        default_default_config
      = (default_default_config, 1)
  ∧ contextualize_config [(CASES, some ['4', '2'])] default_default_config
      = ({ default_default_config with cases := 42 }, 0) :=
  ⟨(claim_C8_env_overrides default_default_config ['a', 'b', 'c']).2.2.1.1
      (by decide),
   (claim_C8_env_overrides default_default_config ['4', '2']).2.2.1.2 42
      (by decide)⟩
